import Mathlib

/-!
Verification development for the eth-validator-watcher Go repository.

Each Go function relevant to the checked claims is shallowly embedded as a
Lean definition, translated directly from the source:

* `pkg/models/types.go`    — data model (statuses, rewards, attestations);
* `pkg/duties` (src/unnamed/part_005) — `DecodeBitVector`,
  `ProcessAttestations`, `ProcessRewards`, `ProcessLiveness`;
* `pkg/validator` (appended to `src/pkg/clock/clock.go`) — the watched
  validator registry (`Update`, `GetByLabel`, `UpdateMetrics`, ...);
* `pkg/metrics/compute.go` — `ComputeMetrics`, `ComputeNetworkMetrics`;
* `pkg/metrics` (src/unnamed/part_006) — the Prometheus counter-delta
  state machine in `PrometheusMetrics.UpdateMetrics`;
* `pkg/clock/clock.go`     — `BeaconClock` arithmetic;
* `pkg/watcher/watcher.go` — the per-slot attestation-duty bookkeeping and
  reward application.

Modelling conventions:

* Go `uint64` values are modelled as `Nat`; every subtraction in the source
  is guarded (`current >= last`, `now >= genesis`) so natural subtraction
  agrees with the machine arithmetic; where overflow is possible in clock
  additions the embedding reduces modulo `2 ^ 64`.
* Go `int64` (`SignedGwei`) is modelled as `Int`.
* Go `float64` weights are modelled as `ℚ`; no checked claim depends on
  floating-point rounding.
* Go maps are modelled as insertion-ordered association lists with
  overwrite-on-assign (`alInsert`); map iteration order, which Go leaves
  unspecified, is taken to be insertion order.
* Hex strings holding SSZ bitvectors are modelled as the byte lists they
  decode to (`encoding/hex`); the empty committee-bits string ("" or "0x")
  corresponds to the empty byte list.
* Committee member lists, stored in Go as decimal strings parsed with
  `fmt.Sscanf`, are modelled directly as lists of validator indices.
-/

namespace EthWatcher

/-! ## Association maps (Go `map` semantics) -/

/-- Lookup in an association list, first match wins (keys are kept unique
by `alInsert`). Models Go map read. -/
def alFind {κ ω : Type} [DecidableEq κ] (m : List (κ × ω)) (k : κ) : Option ω :=
  (m.find? (fun p => decide (p.1 = k))).map (·.2)

/-- Assignment `m[k] = v`: overwrite in place when the key is present,
append otherwise. Models Go map write. -/
def alInsert {κ ω : Type} [DecidableEq κ] (m : List (κ × ω)) (k : κ) (v : ω) :
    List (κ × ω) :=
  if (alFind m k).isSome then
    m.map (fun p => if p.1 = k then (k, v) else p)
  else
    m ++ [(k, v)]

/-- The keys of an association list, in insertion order. -/
def alKeys {κ ω : Type} (m : List (κ × ω)) : List κ := m.map (·.1)

/-- The values of an association list, in insertion order. -/
def alValues {κ ω : Type} (m : List (κ × ω)) : List ω := m.map (·.2)

/-! ## Data model (`pkg/models/types.go`) -/

abbrev ValidatorIndex := Nat
abbrev Gwei := Nat
abbrev SignedGwei := Int
abbrev Slot := Nat
abbrev Epoch := Nat

/-- `ValidatorStatus` — the closed status set of `pkg/models/types.go`. -/
inductive ValidatorStatus where
  | pendingInitialized
  | pendingQueued
  | activeOngoing
  | activeExiting
  | activeSlashed
  | exitedUnslashed
  | exitedSlashed
  | withdrawalPossible
  | withdrawalDone
  deriving DecidableEq, Repr

/-- A network-snapshot validator entry (`models.Validator`); the nested
`Data` struct is flattened here. -/
structure Validator where
  index : ValidatorIndex
  balance : Gwei
  status : ValidatorStatus
  pubkey : String
  effectiveBalance : Gwei
  slashed : Bool
  withdrawalCredentials : String
  deriving DecidableEq, Repr

/-- One configured watched key (`models.WatchedKey`). -/
structure WatchedKey where
  publicKey : String
  labels : List String
  deriving DecidableEq, Repr

/-- A beacon committee (`models.Committee`); `validators` holds the member
indices (decimal strings in the source). -/
structure Committee where
  index : Nat
  slot : Slot
  validators : List ValidatorIndex
  deriving DecidableEq, Repr

/-- `models.AttestationData` (the fields the watcher reads). -/
structure AttestationData where
  slot : Slot
  index : Nat
  deriving DecidableEq, Repr

/-- `models.Attestation`; both bit fields are kept as decoded byte lists.
`committeeBits = []` corresponds to the Go strings "" and "0x". -/
structure Attestation where
  aggregationBits : List Nat
  committeeBits : List Nat
  data : AttestationData
  deriving DecidableEq, Repr

/-- `models.IdealReward`. -/
structure IdealReward where
  effectiveBalance : Gwei
  head : Gwei
  target : Gwei
  source : Gwei
  deriving DecidableEq, Repr

instance : Inhabited IdealReward := ⟨⟨0, 0, 0, 0⟩⟩

/-- `models.TotalReward` (components may be negative). -/
structure TotalReward where
  validatorIndex : ValidatorIndex
  head : SignedGwei
  target : SignedGwei
  source : SignedGwei
  deriving DecidableEq, Repr

/-- `models.RewardsResponse.Data`. -/
structure RewardsResponse where
  idealRewards : List IdealReward
  totalRewards : List TotalReward
  deriving DecidableEq, Repr

/-! ## Bitvector decoding (`pkg/duties`, `DecodeBitVector`) -/

/-- The set positions contributed by one byte of the bitvector: bits are
read LSB-first and positions at or beyond `size` are dropped (the `break`
in the source). -/
def byteSetBits (b : Nat) (base size : Nat) : List Nat :=
  (List.range 8).filterMap fun j =>
    if base + j < size ∧ Nat.testBit b j then some (base + j) else none

/-- Loop of `DecodeBitVector` over the byte list; `base = i * 8` for the
byte at index `i`. -/
def decodeBitVectorAux : List Nat → Nat → Nat → List Nat
  | [], _, _ => []
  | b :: rest, base, size => byteSetBits b base size ++ decodeBitVectorAux rest (base + 8) size

/-- `DecodeBitVector`: decode an SSZ bitvector (already hex-decoded to
`bytes`) into its list of set positions, truncated at `size`. The Go
function returns the positions as a `map[int]bool`; membership in the
returned list models membership in that map. -/
def DecodeBitVector (bytes : List Nat) (size : Nat) : List Nat :=
  decodeBitVectorAux bytes 0 size

/-! ## Attestation attribution (`pkg/duties`, `ProcessAttestations`) -/

/-- The Go code builds `committeeMap[committee.Index] = committee` over the
input list; a later committee with the same index overwrites an earlier
one, so lookup finds the last matching entry. -/
def committeeMapFind (committees : List Committee) (i : Nat) : Option Committee :=
  committees.reverse.find? (fun c => decide (c.index = i))

/-- Pre-Electra marking: for each set position below the committee size,
mark the committee member at that position. -/
def markSingleCommittee (bits : List Nat) (c : Committee) : List ValidatorIndex :=
  bits.filterMap fun pos =>
    if pos < c.validators.length then c.validators.get? pos else none

/-- The ordered list of active committees for an Electra attestation:
committee indices 0..63 in order, kept when their bit is set and a matching
committee exists. -/
def activeCommittees (committees : List Committee) (committeeBits : List Nat) :
    List Committee :=
  (List.range 64).filterMap fun ci =>
    if ci ∈ committeeBits then committeeMapFind committees ci else none

/-- The `committeeOffset` walk of the Electra branch: position `i` within a
committee corresponds to global aggregation bit `offset + i`. -/
def markActiveCommittees : List Committee → List Nat → Nat → List ValidatorIndex
  | [], _, _ => []
  | c :: rest, aggBits, offset =>
      ((List.range c.validators.length).filterMap fun i =>
        if offset + i ∈ aggBits then c.validators.get? i else none)
        ++ markActiveCommittees rest aggBits (offset + c.validators.length)

/-- Attribution for a single attestation. Decode errors in the source can
only arise from malformed hex strings, which the byte-list modelling rules
out, so the `error` return path is not represented. -/
def processOneAttestation (committees : List Committee) (att : Attestation) :
    List ValidatorIndex :=
  if att.committeeBits = [] then
    match committeeMapFind committees att.data.index with
    | none => []
    | some committee =>
        markSingleCommittee
          (DecodeBitVector att.aggregationBits committee.validators.length) committee
  else
    let committeeBits := DecodeBitVector att.committeeBits 64
    let active := activeCommittees committees committeeBits
    let totalValidators := (active.map (·.validators.length)).sum
    if active = [] then []
    else markActiveCommittees active (DecodeBitVector att.aggregationBits totalValidators) 0

/-- `ProcessAttestations`: the union over all attestations of the attested
validators (the Go result is a `map[ValidatorIndex]bool`; list membership
models map membership). -/
def ProcessAttestations (attestations : List Attestation) (committees : List Committee) :
    List ValidatorIndex :=
  (attestations.map (processOneAttestation committees)).flatten

/-! ## Watched-validator registry (`pkg/validator`) -/

/-- `validator.WatchedValidator`: an embedded snapshot entry plus labels,
weight and the mutable counters. -/
structure WatchedValidator where
  validator : Validator
  labels : List String
  weight : ℚ
  missedAttestations : Nat := 0
  suboptimalSourceVotes : Nat := 0
  suboptimalTargetVotes : Nat := 0
  suboptimalHeadVotes : Nat := 0
  idealConsensusRewards : Gwei := 0
  consensusRewards : SignedGwei := 0
  proposedBlocks : Nat := 0
  proposedBlocksFinalized : Nat := 0
  missedBlocks : Nat := 0
  missedBlocksFinalized : Nat := 0
  futureBlockProposals : Nat := 0
  attestationDuties : Nat := 0
  attestationDutiesSuccess : Nat := 0
  consecutiveMissedAttest : Nat := 0
  deriving DecidableEq, Repr

/-- `validator.WatchedValidators`: the three indices of the registry. -/
structure WatchedValidators where
  validators : List (ValidatorIndex × WatchedValidator)
  pubkeyMap : List (String × ValidatorIndex)
  labels : List (String × List ValidatorIndex)
  deriving Repr

/-- The entry built for a matched validator inside `Update`: fresh counters,
weight `effective_balance / 32·10⁹`, scope labels then user labels. -/
def mkWatched (v : Validator) (cfg : WatchedKey) : WatchedValidator :=
  { validator := v
    labels := "scope:all-network" :: "scope:watched" :: cfg.labels
    weight := (v.effectiveBalance : ℚ) / 32000000000 }

/-- `configMap[wk.PublicKey] = wk` over the configured keys. -/
def configMapOf (config : List WatchedKey) : List (String × WatchedKey) :=
  config.foldl (fun m wk => alInsert m wk.publicKey wk) []

/-- `labels[label] = append(labels[label], idx)`. -/
def labelAppend (m : List (String × List ValidatorIndex)) (label : String)
    (idx : ValidatorIndex) : List (String × List ValidatorIndex) :=
  alInsert m label ((alFind m label).getD [] ++ [idx])

/-- The body of `Update`'s main loop for one matched validator. -/
def insertWatched (wv : WatchedValidators) (v : Validator) (cfg : WatchedKey) :
    WatchedValidators :=
  let watched := mkWatched v cfg
  { validators := alInsert wv.validators v.index watched
    pubkeyMap := alInsert wv.pubkeyMap v.pubkey v.index
    labels := watched.labels.foldl (fun m label => labelAppend m label v.index) wv.labels }

/-- `Update`'s main loop: old data cleared, then each input validator whose
pubkey is configured is inserted. -/
def updateMainLoop (validators : List Validator) (config : List WatchedKey) :
    WatchedValidators :=
  let configMap := configMapOf config
  validators.foldl
    (fun wv v =>
      match alFind configMap v.pubkey with
      | none => wv
      | some cfg => insertWatched wv v cfg)
    { validators := [], pubkeyMap := [], labels := [] }

/-- `WatchedValidators.Update`: the main loop followed by the final pass
that appends every registered index under the label "scope:network". -/
def WatchedValidatorsUpdate (validators : List Validator) (config : List WatchedKey) :
    WatchedValidators :=
  let wv := updateMainLoop validators config
  { wv with
      labels := (alKeys wv.validators).foldl
        (fun m idx => labelAppend m "scope:network" idx) wv.labels }

/-- `WatchedValidators.GetByLabel`. -/
def GetByLabel (wv : WatchedValidators) (label : String) : List WatchedValidator :=
  match alFind wv.labels label with
  | none => []
  | some indices => indices.filterMap fun idx => alFind wv.validators idx

/-- `WatchedValidators.GetAll` (map values, in insertion order). -/
def GetAll (wv : WatchedValidators) : List WatchedValidator :=
  alValues wv.validators

/-- `WatchedValidators.UpdateMetrics`: an error (and an unchanged registry)
when the index is unknown, otherwise the mutator applied to that entry.
The Go mutation-in-place is the overwrite of the entry. -/
def WatchedValidatorsUpdateMetrics (wv : WatchedValidators) (index : ValidatorIndex)
    (fn : WatchedValidator → WatchedValidator) : Option String × WatchedValidators :=
  match alFind wv.validators index with
  | none => (some ("validator " ++ toString index ++ " not found"), wv)
  | some v => (none, { wv with validators := alInsert wv.validators index (fn v) })

/-! ## Per-slot attestation-duty bookkeeping (`pkg/watcher`,
`ValidatorWatcher.processAttestations`) -/

/-- The two counter mutations of `processAttestations`: success bumps
`AttestationDutiesSuccess` and `AttestationDuties` and clears the
consecutive-miss counter; a miss bumps `ConsecutiveMissedAttest` and
`AttestationDuties`. -/
def attestationDutyStep (attested : Bool) (wv : WatchedValidator) : WatchedValidator :=
  if attested then
    { wv with
        attestationDutiesSuccess := wv.attestationDutiesSuccess + 1
        attestationDuties := wv.attestationDuties + 1
        consecutiveMissedAttest := 0 }
  else
    { wv with
        consecutiveMissedAttest := wv.consecutiveMissedAttest + 1
        attestationDuties := wv.attestationDuties + 1 }

/-- `validatorsWithDuties`: the distinct validator indices over all
committees of the attested slot (a `map[ValidatorIndex]bool` in the
source). -/
def dutySetOf (committees : List Committee) : List ValidatorIndex :=
  ((committees.map (·.validators)).flatten).dedup

/-- The duty-update loop: each validator with a duty that is present in the
watched registry receives one `attestationDutyStep`; unwatched indices are
skipped (and `UpdateMetrics` leaves the registry unchanged on an unknown
index anyway). -/
def processAttestationDuties (dutySet : List ValidatorIndex)
    (attested : ValidatorIndex → Bool) (wv : WatchedValidators) : WatchedValidators :=
  dutySet.foldl
    (fun wv idx => (WatchedValidatorsUpdateMetrics wv idx (attestationDutyStep (attested idx))).2)
    wv

/-- `ValidatorWatcher.processAttestations` for slot `slot`: slot 0 is a
no-op; otherwise attestations are filtered to `data.slot == slot − 1`,
attribution runs against the previous slot's committees, and the duty loop
updates the registry. -/
def watcherProcessAttestations (slot : Slot) (attestations : List Attestation)
    (committees : List Committee) (wv : WatchedValidators) : WatchedValidators :=
  if slot = 0 then wv
  else
    let previousSlot := slot - 1
    let filtered := attestations.filter fun a => decide (a.data.slot = previousSlot)
    let attested := ProcessAttestations filtered committees
    processAttestationDuties (dutySetOf committees) (fun idx => decide (idx ∈ attested)) wv

/-- The `MissedBlocks++` mutation of `processBlock` (missed proposal). -/
def blockMissedStep (wv : WatchedValidator) : WatchedValidator :=
  { wv with missedBlocks := wv.missedBlocks + 1 }

/-- The `ProposedBlocks++` mutation of `processBlock` (successful
proposal). -/
def blockProposedStep (wv : WatchedValidator) : WatchedValidator :=
  { wv with proposedBlocks := wv.proposedBlocks + 1 }

/-- The `MissedAttestations++` mutation of `processLiveness`. -/
def livenessMissStep (wv : WatchedValidator) : WatchedValidator :=
  { wv with missedAttestations := wv.missedAttestations + 1 }

/-! ## Reward diff engine (`pkg/duties`, `ProcessRewards`, and the
`processRewards` mutator of `pkg/watcher`) -/

/-- `duties.RewardData`. -/
structure RewardData where
  idealHead : Gwei
  idealTarget : Gwei
  idealSource : Gwei
  idealTotal : Gwei
  actualHead : SignedGwei
  actualTarget : SignedGwei
  actualSource : SignedGwei
  actualTotal : SignedGwei
  suboptimalSource : Bool
  suboptimalTarget : Bool
  suboptimalHead : Bool
  deriving DecidableEq, Repr

/-- `idealByBalance[ideal.EffectiveBalance] = ideal` over the ideal list. -/
def idealMapOf (rs : List IdealReward) : List (Gwei × IdealReward) :=
  rs.foldl (fun m i => alInsert m i.effectiveBalance i) []

/-- `totalRewardsMap[total.ValidatorIndex] = total` over the total list. -/
def totalMapOf (ts : List TotalReward) : List (ValidatorIndex × TotalReward) :=
  ts.foldl (fun m t => alInsert m t.validatorIndex t) []

/-- The ideal-record selection of `ProcessRewards`: the bucket matching the
validator's effective balance, else the 32·10⁹ bucket, else the first
available record (Go picks an arbitrary map entry; insertion order stands
in for the unspecified iteration order), else the zero value. -/
def pickIdeal (idealMap : List (Gwei × IdealReward)) (effectiveBalance : Gwei) :
    IdealReward :=
  match alFind idealMap effectiveBalance with
  | some i => i
  | none =>
    match alFind idealMap 32000000000 with
    | some i => i
    | none => ((idealMap.head?).map (·.2)).getD default

/-- The `RewardData` built for one validator from its ideal and total
records (ideal components compared against the signed totals). -/
def mkRewardData (ideal : IdealReward) (total : TotalReward) : RewardData :=
  { idealHead := ideal.head
    idealTarget := ideal.target
    idealSource := ideal.source
    idealTotal := ideal.source + ideal.target + ideal.head
    actualHead := total.head
    actualTarget := total.target
    actualSource := total.source
    actualTotal := total.source + total.target + total.head
    suboptimalSource := decide (total.source < (ideal.source : Int))
    suboptimalTarget := decide (total.target < (ideal.target : Int))
    suboptimalHead := decide (total.head < (ideal.head : Int)) }

/-- `duties.ProcessRewards`: validators (index ↦ effective balance) absent
from the total list are skipped; the rest get a `RewardData`. -/
def ProcessRewards (rewards : RewardsResponse) (validators : List (ValidatorIndex × Gwei)) :
    List (ValidatorIndex × RewardData) :=
  let idealMap := idealMapOf rewards.idealRewards
  let totalMap := totalMapOf rewards.totalRewards
  validators.filterMap fun p =>
    match alFind totalMap p.1 with
    | none => none
    | some total => some (p.1, mkRewardData (pickIdeal idealMap p.2) total)

/-- The per-validator mutator of `ValidatorWatcher.processRewards`: the
suboptimal counters increment when their flag is set, the reward totals
are overwritten. -/
def applyRewardData (data : RewardData) (wv : WatchedValidator) : WatchedValidator :=
  { wv with
      suboptimalSourceVotes :=
        if data.suboptimalSource then wv.suboptimalSourceVotes + 1 else wv.suboptimalSourceVotes
      suboptimalTargetVotes :=
        if data.suboptimalTarget then wv.suboptimalTargetVotes + 1 else wv.suboptimalTargetVotes
      suboptimalHeadVotes :=
        if data.suboptimalHead then wv.suboptimalHeadVotes + 1 else wv.suboptimalHeadVotes
      idealConsensusRewards := data.idealTotal
      consensusRewards := data.actualTotal }

/-! ## Metrics aggregation (`pkg/metrics/compute.go`) -/

/-- `metrics.ValidatorDetail`. -/
structure ValidatorDetail where
  index : ValidatorIndex
  pubkey : String
  value : Nat
  deriving DecidableEq, Repr

/-- `metrics.MetricsByLabel`. The Go status/type maps, read with a zero
default, are modelled as total functions. -/
structure MetricsByLabel where
  label : String
  validatorCount : Nat := 0
  stakeCount : ℚ := 0
  missedAttestations : Nat := 0
  missedAttestationsStake : ℚ := 0
  suboptimalSourceVotes : Nat := 0
  suboptimalSourceVotesStake : ℚ := 0
  suboptimalTargetVotes : Nat := 0
  suboptimalTargetVotesStake : ℚ := 0
  suboptimalHeadVotes : Nat := 0
  suboptimalHeadVotesStake : ℚ := 0
  proposedBlocks : Nat := 0
  proposedBlocksFinalized : Nat := 0
  missedBlocks : Nat := 0
  missedBlocksFinalized : Nat := 0
  futureBlockProposals : Nat := 0
  idealConsensusRewards : Gwei := 0
  consensusRewards : SignedGwei := 0
  consensusRewardsRate : ℚ := 0
  attestationDuties : Nat := 0
  attestationDutiesSuccess : Nat := 0
  attestationDutiesRate : ℚ := 0
  attestationDutiesStake : ℚ := 0
  statusCounts : ValidatorStatus → Nat := fun _ => 0
  statusStakes : ValidatorStatus → ℚ := fun _ => 0
  validatorTypeCounts : String → Nat := fun _ => 0
  validatorTypeStakes : String → ℚ := fun _ => 0
  slashedCount : Nat := 0
  slashedStake : ℚ := 0
  maxConsecutiveMissed : Nat := 0
  maxConsecutiveMissedStake : ℚ := 0
  missedAttestationDetails : List ValidatorDetail := []
  suboptimalSourceDetails : List ValidatorDetail := []
  suboptimalTargetDetails : List ValidatorDetail := []
  suboptimalHeadDetails : List ValidatorDetail := []
  missedBlockDetails : List ValidatorDetail := []

/-- `getValidatorType`: the first byte of the withdrawal credentials,
mapped to "0" (BLS), "1" (execution) or "2" (compounding), defaulting to
"0". -/
def getValidatorType (withdrawalCredentials : String) : String :=
  if withdrawalCredentials.length < 4 then "0"
  else
    let cleaned :=
      if withdrawalCredentials.startsWith "0x" then withdrawalCredentials.drop 2
      else withdrawalCredentials
    if cleaned.length < 2 then "0"
    else
      let firstByte := cleaned.take 2
      if firstByte = "00" then "0"
      else if firstByte = "01" then "1"
      else if firstByte = "02" then "2"
      else "0"

/-- The `isActive` test of `ComputeMetrics` (status in
{active_ongoing, active_exiting, active_slashed}). -/
def isActiveStatus (s : ValidatorStatus) : Bool :=
  decide (s = .activeOngoing) || decide (s = .activeExiting) || decide (s = .activeSlashed)

/-- The bounded example-list appends (`len < 5` guard of the source). -/
def appendDetail (details : List ValidatorDetail) (value : Nat) (v : WatchedValidator) :
    List ValidatorDetail :=
  if value > 0 ∧ details.length < 5 then
    details ++ [⟨v.validator.index, v.validator.pubkey, value⟩]
  else details

/-- The per-validator body of `ComputeMetrics`' worker loop, applied once
for each label the validator bears. -/
def updateRecord (m : MetricsByLabel) (v : WatchedValidator) : MetricsByLabel :=
  let isActive := isActiveStatus v.validator.status
  let consecStakeWeighted : ℚ := (v.consecutiveMissedAttest : ℚ) * v.weight
  { m with
      validatorCount := m.validatorCount + 1
      stakeCount := m.stakeCount + v.weight
      statusCounts := fun s =>
        if s = v.validator.status then m.statusCounts s + 1 else m.statusCounts s
      statusStakes := fun s =>
        if s = v.validator.status then m.statusStakes s + v.weight else m.statusStakes s
      validatorTypeCounts := fun t =>
        if t = getValidatorType v.validator.withdrawalCredentials then
          m.validatorTypeCounts t + 1
        else m.validatorTypeCounts t
      validatorTypeStakes := fun t =>
        if t = getValidatorType v.validator.withdrawalCredentials then
          m.validatorTypeStakes t + v.weight
        else m.validatorTypeStakes t
      slashedCount := if v.validator.slashed then m.slashedCount + 1 else m.slashedCount
      slashedStake := if v.validator.slashed then m.slashedStake + v.weight else m.slashedStake
      maxConsecutiveMissed :=
        if v.consecutiveMissedAttest > m.maxConsecutiveMissed then v.consecutiveMissedAttest
        else m.maxConsecutiveMissed
      maxConsecutiveMissedStake :=
        if consecStakeWeighted > m.maxConsecutiveMissedStake then consecStakeWeighted
        else m.maxConsecutiveMissedStake
      missedAttestations :=
        if isActive then m.missedAttestations + v.missedAttestations else m.missedAttestations
      missedAttestationsStake :=
        if isActive then m.missedAttestationsStake + (v.missedAttestations : ℚ) * v.weight
        else m.missedAttestationsStake
      suboptimalSourceVotes :=
        if isActive then m.suboptimalSourceVotes + v.suboptimalSourceVotes
        else m.suboptimalSourceVotes
      suboptimalSourceVotesStake :=
        if isActive then m.suboptimalSourceVotesStake + (v.suboptimalSourceVotes : ℚ) * v.weight
        else m.suboptimalSourceVotesStake
      suboptimalTargetVotes :=
        if isActive then m.suboptimalTargetVotes + v.suboptimalTargetVotes
        else m.suboptimalTargetVotes
      suboptimalTargetVotesStake :=
        if isActive then m.suboptimalTargetVotesStake + (v.suboptimalTargetVotes : ℚ) * v.weight
        else m.suboptimalTargetVotesStake
      suboptimalHeadVotes :=
        if isActive then m.suboptimalHeadVotes + v.suboptimalHeadVotes
        else m.suboptimalHeadVotes
      suboptimalHeadVotesStake :=
        if isActive then m.suboptimalHeadVotesStake + (v.suboptimalHeadVotes : ℚ) * v.weight
        else m.suboptimalHeadVotesStake
      missedBlocksFinalized :=
        if isActive then m.missedBlocksFinalized + v.missedBlocksFinalized
        else m.missedBlocksFinalized
      futureBlockProposals :=
        if isActive then m.futureBlockProposals + v.futureBlockProposals
        else m.futureBlockProposals
      idealConsensusRewards :=
        if isActive then m.idealConsensusRewards + v.idealConsensusRewards
        else m.idealConsensusRewards
      consensusRewards :=
        if isActive then m.consensusRewards + v.consensusRewards else m.consensusRewards
      attestationDuties :=
        if isActive then m.attestationDuties + v.attestationDuties else m.attestationDuties
      attestationDutiesSuccess :=
        if isActive then m.attestationDutiesSuccess + v.attestationDutiesSuccess
        else m.attestationDutiesSuccess
      attestationDutiesStake :=
        if isActive then m.attestationDutiesStake + (v.attestationDuties : ℚ) * v.weight
        else m.attestationDutiesStake
      proposedBlocks := m.proposedBlocks + v.proposedBlocks
      proposedBlocksFinalized := m.proposedBlocksFinalized + v.proposedBlocksFinalized
      missedBlocks := m.missedBlocks + v.missedBlocks
      missedAttestationDetails := appendDetail m.missedAttestationDetails v.missedAttestations v
      suboptimalSourceDetails := appendDetail m.suboptimalSourceDetails v.suboptimalSourceVotes v
      suboptimalTargetDetails := appendDetail m.suboptimalTargetDetails v.suboptimalTargetVotes v
      suboptimalHeadDetails := appendDetail m.suboptimalHeadDetails v.suboptimalHeadVotes v
      missedBlockDetails := appendDetail m.missedBlockDetails v.missedBlocks v }

/-- The record a label starts from (`&MetricsByLabel{Label: label, ...}`). -/
def newRecord (label : String) : MetricsByLabel := { label := label }

/-- Process one label of one validator: get-or-create the label's record,
then apply the per-validator updates. -/
def touchLabel (v : WatchedValidator) (acc : List (String × MetricsByLabel))
    (label : String) : List (String × MetricsByLabel) :=
  alInsert acc label (updateRecord ((alFind acc label).getD (newRecord label)) v)

/-- One validator: its per-validator updates run once per borne label. -/
def processValidator (acc : List (String × MetricsByLabel)) (v : WatchedValidator) :
    List (String × MetricsByLabel) :=
  v.labels.foldl (touchLabel v) acc

/-- First half of the rate pass of `ComputeMetrics`:
`ConsensusRewardsRate = ConsensusRewards / IdealConsensusRewards` when the
ideal sum is positive. -/
def applyRewardsRate (r : MetricsByLabel) : MetricsByLabel :=
  if r.idealConsensusRewards > 0 then
    { r with consensusRewardsRate := (r.consensusRewards : ℚ) / (r.idealConsensusRewards : ℚ) }
  else r

/-- Second half of the rate pass: `AttestationDutiesRate =
AttestationDutiesSuccess / AttestationDuties` when duties were counted. -/
def applyDutiesRate (r : MetricsByLabel) : MetricsByLabel :=
  if r.attestationDuties > 0 then
    { r with
        attestationDutiesRate := (r.attestationDutiesSuccess : ℚ) / (r.attestationDuties : ℚ) }
  else r

/-- The final rate pass of `ComputeMetrics` (both conditional rate
assignments, in source order). -/
def applyRates (r : MetricsByLabel) : MetricsByLabel :=
  applyDutiesRate (applyRewardsRate r)

/-- `metrics.ComputeMetrics`. The source partitions the validator slice
into per-CPU chunks and merges the partial maps by adding scalars, merging
the keyed maps, taking maxima of the consecutive-miss fields and
concatenating the capped detail lists; the single-chunk schedule modelled
here produces the same per-label sums, maxima and key sets for every
partition. -/
def ComputeMetrics (validators : List WatchedValidator) : List (String × MetricsByLabel) :=
  (validators.foldl processValidator []).map fun p => (p.1, applyRates p.2)

/-- `metrics.ComputeNetworkMetrics`' per-validator step. -/
def networkStep (m : MetricsByLabel) (v : Validator) : MetricsByLabel :=
  let weight : ℚ := (v.effectiveBalance : ℚ) / 32000000000
  { m with
      validatorCount := m.validatorCount + 1
      stakeCount := m.stakeCount + weight
      statusCounts := fun s => if s = v.status then m.statusCounts s + 1 else m.statusCounts s
      statusStakes := fun s => if s = v.status then m.statusStakes s + weight else m.statusStakes s
      validatorTypeCounts := fun t =>
        if t = getValidatorType v.withdrawalCredentials then m.validatorTypeCounts t + 1
        else m.validatorTypeCounts t
      validatorTypeStakes := fun t =>
        if t = getValidatorType v.withdrawalCredentials then m.validatorTypeStakes t + weight
        else m.validatorTypeStakes t
      slashedCount := if v.slashed then m.slashedCount + 1 else m.slashedCount
      slashedStake := if v.slashed then m.slashedStake + weight else m.slashedStake }

/-- `metrics.ComputeNetworkMetrics`: counts, stakes, statuses, types and
slashing over the full snapshot (no duty data). -/
def ComputeNetworkMetrics (allValidators : List Validator) : MetricsByLabel :=
  allValidators.foldl networkStep (newRecord "scope:all-network")

/-- The map published by `ValidatorWatcher.updateMetrics`: the per-label
aggregation of the watched registry, with the all-network record from the
full snapshot assigned at key "scope:all-network". -/
def updateMetricsMap (watchedVals : List WatchedValidator) (allVals : List Validator) :
    List (String × MetricsByLabel) :=
  alInsert (ComputeMetrics watchedVals) "scope:all-network" (ComputeNetworkMetrics allVals)

/-! ## Counter exposition (`pkg/metrics`, `PrometheusMetrics.UpdateMetrics`) -/

/-- `metrics.counterValues`: the last-seen registry totals for one
(network, scope) pair. -/
structure CounterValues where
  proposedBlocks : Nat
  missedBlocks : Nat
  proposedBlocksFinalized : Nat
  missedBlocksFinalized : Nat
  deriving DecidableEq, Repr

/-- Componentwise addition (the `Add(float64(delta))` calls). -/
def counterAdd (a b : CounterValues) : CounterValues :=
  { proposedBlocks := a.proposedBlocks + b.proposedBlocks
    missedBlocks := a.missedBlocks + b.missedBlocks
    proposedBlocksFinalized := a.proposedBlocksFinalized + b.proposedBlocksFinalized
    missedBlocksFinalized := a.missedBlocksFinalized + b.missedBlocksFinalized }

/-- The delta computation of `UpdateMetrics` for one scope key: with a
last-seen record, each delta is `current − last` when the value did not
decrease and 0 otherwise; on the first observation of a scope the deltas
are the current values. -/
def counterDeltas (lastSeen : Option CounterValues) (current : CounterValues) :
    CounterValues :=
  match lastSeen with
  | some lastValues =>
      { proposedBlocks :=
          if lastValues.proposedBlocks ≤ current.proposedBlocks then
            current.proposedBlocks - lastValues.proposedBlocks
          else 0
        missedBlocks :=
          if lastValues.missedBlocks ≤ current.missedBlocks then
            current.missedBlocks - lastValues.missedBlocks
          else 0
        proposedBlocksFinalized :=
          if lastValues.proposedBlocksFinalized ≤ current.proposedBlocksFinalized then
            current.proposedBlocksFinalized - lastValues.proposedBlocksFinalized
          else 0
        missedBlocksFinalized :=
          if lastValues.missedBlocksFinalized ≤ current.missedBlocksFinalized then
            current.missedBlocksFinalized - lastValues.missedBlocksFinalized
          else 0 }
  | none => current

/-- The exposition state for one (network, scope) key: the
`counterState[scopeKey]` entry and the accumulated exported counters. -/
structure ExportedCounterState where
  lastSeen : Option CounterValues
  exported : CounterValues
  deriving DecidableEq, Repr

/-- One publish cycle for one scope key: add the deltas to the exported
counters and store the current totals as the new last-seen. -/
def publishCounters (s : ExportedCounterState) (current : CounterValues) :
    ExportedCounterState :=
  { lastSeen := some current
    exported := counterAdd s.exported (counterDeltas s.lastSeen current) }

/-- Before the first cycle: no last-seen entry, exported counters at 0. -/
def initialExportedCounterState : ExportedCounterState :=
  { lastSeen := none, exported := ⟨0, 0, 0, 0⟩ }

/-- A sequence of publish cycles observing the given registry totals. -/
def runPublishCycles (observations : List CounterValues) : ExportedCounterState :=
  observations.foldl publishCounters initialExportedCounterState

/-! ## Beacon clock (`pkg/clock/clock.go`) -/

/-- `clock.BeaconClock` (the arithmetic fields; replay mode substitutes the
replay start timestamp for the wall time, covered by the `now` parameter
below). -/
structure BeaconClock where
  genesisTime : Nat
  secondsPerSlot : Nat
  slotsPerEpoch : Nat
  slotLagSeconds : Nat
  deriving DecidableEq, Repr

/-- `CurrentSlot`: 0 before genesis, otherwise the floor quotient. -/
def CurrentSlot (c : BeaconClock) (now : Nat) : Slot :=
  if now < c.genesisTime then 0 else (now - c.genesisTime) / c.secondsPerSlot

/-- `SlotToEpoch`. -/
def SlotToEpoch (c : BeaconClock) (slot : Slot) : Epoch :=
  slot / c.slotsPerEpoch

/-- `EpochToSlot` (uint64 multiplication). -/
def EpochToSlot (c : BeaconClock) (epoch : Epoch) : Slot :=
  (epoch * c.slotsPerEpoch) % 2 ^ 64

/-- `CurrentEpoch`. -/
def CurrentEpoch (c : BeaconClock) (now : Nat) : Epoch :=
  SlotToEpoch c (CurrentSlot c now)

/-- `SlotEndTime` (uint64 additions), as a unix timestamp. -/
def SlotEndTime (c : BeaconClock) (slot : Slot) : Nat :=
  (c.genesisTime + slot * c.secondsPerSlot + c.secondsPerSlot + c.slotLagSeconds) % 2 ^ 64

/-- `IsFirstSlotOfEpoch`. -/
def IsFirstSlotOfEpoch (c : BeaconClock) (slot : Slot) : Bool :=
  decide (slot % c.slotsPerEpoch = 0)

/-- `IsSlotInEpoch`. -/
def IsSlotInEpoch (c : BeaconClock) (slot : Slot) (position : Nat) : Bool :=
  decide (slot % c.slotsPerEpoch = position)

/-! ## Example fixtures (used by concrete witnesses) -/

/-- A sample snapshot entry. -/
def sampleValidator : Validator :=
  ⟨100, 32000000000, .activeOngoing, "0xabc", 32000000000, false, "0x01aa"⟩

/-- The watched entry `Update` builds for `sampleValidator`. -/
def sampleWatched : WatchedValidator :=
  mkWatched sampleValidator ⟨"0xabc", ["vc:v1"]⟩

/-- A registry holding only `sampleValidator`. -/
def sampleRegistry : WatchedValidators :=
  WatchedValidatorsUpdate [sampleValidator] [⟨"0xabc", ["vc:v1"]⟩]

/-- Fixture for the duty-accounting witness: a watched validator with a
committee duty. -/
def dutyValidator : Validator :=
  ⟨10, 32000000000, .activeOngoing, "0xduty", 32000000000, false, "0x01aa"⟩

/-- The watched entry for `dutyValidator`. -/
def dutyWatched : WatchedValidator :=
  mkWatched dutyValidator ⟨"0xduty", []⟩

/-- A registry holding only `dutyValidator`. -/
def dutyRegistry : WatchedValidators :=
  WatchedValidatorsUpdate [dutyValidator] [⟨"0xduty", []⟩]

/-- Fixture for the aggregation counterexample: a watched validator in a
non-active status with non-zero block counters. -/
def cexInactive : WatchedValidator :=
  { validator := ⟨5, 0, .exitedUnslashed, "0xcex", 32000000000, false, "0x01cc"⟩
    labels := ["scope:watched"]
    weight := 1
    proposedBlocks := 1
    proposedBlocksFinalized := 1
    missedBlocks := 1
    missedBlocksFinalized := 1
    futureBlockProposals := 1 }

/-! ## Association-map lemmas -/

theorem alFind_cons {κ ω : Type} [DecidableEq κ] (p : κ × ω) (m : List (κ × ω)) (k : κ) :
    alFind (p :: m) k = if p.1 = k then some p.2 else alFind m k := by
  by_cases h : p.1 = k <;> simp [alFind, List.find?_cons, h]

theorem alFind_append {κ ω : Type} [DecidableEq κ] (m₁ m₂ : List (κ × ω)) (k : κ) :
    alFind (m₁ ++ m₂) k = (alFind m₁ k).orElse fun _ => alFind m₂ k := by
  induction m₁ with
  | nil => simp [alFind]
  | cons p m ih =>
      by_cases h : p.1 = k <;> simp [alFind_cons, h, ih]

theorem alFind_alInsert_self {κ ω : Type} [DecidableEq κ] (m : List (κ × ω)) (k : κ) (v : ω) :
    alFind (alInsert m k v) k = some v := by
  unfold alInsert
  split
  · next hsome =>
      induction m with
      | nil => simp [alFind] at hsome
      | cons p m ih =>
          by_cases h : p.1 = k
          · simp [alFind_cons, h]
          · simp only [alFind_cons, h, if_false] at hsome
            simpa [alFind_cons, h] using ih hsome
  · rw [alFind_append]
    have : alFind m k = none := by
      cases h : alFind m k
      · rfl
      · simp [h] at *
    simp [this, alFind_cons]

theorem alFind_nil {κ ω : Type} [DecidableEq κ] (k : κ) :
    alFind ([] : List (κ × ω)) k = none := rfl

theorem alFind_replaceMap_ne {κ ω : Type} [DecidableEq κ] (m : List (κ × ω)) (k j : κ)
    (v : ω) (hne : j ≠ k) :
    alFind (m.map fun p => if p.1 = k then (k, v) else p) j = alFind m j := by
  induction m with
  | nil => simp [alFind]
  | cons p m ih =>
      by_cases h : p.1 = k
      · simp [alFind_cons, h, Ne.symm hne, ih]
      · simp [alFind_cons, h, ih]

theorem alFind_alInsert_ne {κ ω : Type} [DecidableEq κ] (m : List (κ × ω)) (k j : κ) (v : ω)
    (hne : j ≠ k) : alFind (alInsert m k v) j = alFind m j := by
  unfold alInsert
  split
  · exact alFind_replaceMap_ne m k j v hne
  · rw [alFind_append]
    cases h : alFind m j <;> simp [h, alFind_cons, Ne.symm hne, alFind_nil]

theorem alFind_map_value {κ ω ω' : Type} [DecidableEq κ] (m : List (κ × ω)) (f : ω → ω')
    (k : κ) : alFind (m.map fun p => (p.1, f p.2)) k = (alFind m k).map f := by
  induction m with
  | nil => simp [alFind]
  | cons p m ih =>
      by_cases h : p.1 = k <;> simp [alFind_cons, h, ih]

theorem alFind_some_mem {κ ω : Type} [DecidableEq κ] {m : List (κ × ω)} {k : κ} {v : ω}
    (h : alFind m k = some v) : (k, v) ∈ m := by
  induction m with
  | nil => simp [alFind] at h
  | cons p m ih =>
      by_cases hp : p.1 = k
      · simp only [alFind_cons, hp, if_true, Option.some.injEq] at h
        subst h; subst hp
        exact List.mem_cons_self _ _
      · simp only [alFind_cons, hp, if_false] at h
        exact List.mem_cons_of_mem _ (ih h)

theorem mem_alInsert {κ ω : Type} [DecidableEq κ] {m : List (κ × ω)} {k : κ} {v : ω}
    {q : κ × ω} (h : q ∈ alInsert m k v) : q ∈ m ∨ q = (k, v) := by
  unfold alInsert at h
  split at h
  · rcases List.mem_map.mp h with ⟨p, hp, hq⟩
    by_cases hk : p.1 = k
    · simp only [hk, if_true] at hq
      exact Or.inr hq.symm
    · simp only [hk, if_false] at hq
      exact Or.inl (hq ▸ hp)
  · rcases List.mem_append.mp h with h | h
    · exact Or.inl h
    · simp only [List.mem_singleton] at h
      exact Or.inr h

/-! ## Bitvector decoding lemmas -/

theorem mem_byteSetBits {b base size p : Nat} :
    p ∈ byteSetBits b base size ↔ ∃ j < 8, base + j = p ∧ p < size ∧ Nat.testBit b j := by
  simp only [byteSetBits, List.mem_filterMap, List.mem_range]
  constructor
  · rintro ⟨j, hj, h⟩
    split_ifs at h with hc
    injection h with h'
    subst h'
    exact ⟨j, hj, rfl, hc.1, hc.2⟩
  · rintro ⟨j, hj, rfl, hp, hb⟩
    refine ⟨j, hj, ?_⟩
    simp [hp, hb]

theorem mem_decodeBitVectorAux {bytes : List Nat} {base size p : Nat} :
    p ∈ decodeBitVectorAux bytes base size ↔
      ∃ i < bytes.length, ∃ j < 8,
        base + i * 8 + j = p ∧ p < size ∧ Nat.testBit (bytes.getD i 0) j := by
  induction bytes generalizing base with
  | nil => simp [decodeBitVectorAux]
  | cons b rest ih =>
      simp only [decodeBitVectorAux, List.mem_append, mem_byteSetBits, ih, List.length_cons]
      constructor
      · rintro (⟨j, hj, hpe, hps, hb⟩ | ⟨i, hi, j, hj, hpe, hps, hb⟩)
        · exact ⟨0, by omega, j, hj, by omega, hps, by simpa using hb⟩
        · exact ⟨i + 1, by omega, j, hj, by omega, hps, by simpa using hb⟩
      · rintro ⟨i, hi, j, hj, hpe, hps, hb⟩
        cases i with
        | zero => exact Or.inl ⟨j, hj, by omega, hps, by simpa using hb⟩
        | succ i =>
            exact Or.inr ⟨i, by omega, j, hj, by omega, hps, by simpa using hb⟩

theorem mem_DecodeBitVector {bytes : List Nat} {size p : Nat} :
    p ∈ DecodeBitVector bytes size ↔
      p < size ∧ p / 8 < bytes.length ∧ Nat.testBit (bytes.getD (p / 8) 0) (p % 8) := by
  rw [DecodeBitVector, mem_decodeBitVectorAux]
  constructor
  · rintro ⟨i, hi, j, hj, hpe, hps, hb⟩
    have hdiv : p / 8 = i := by omega
    have hmod : p % 8 = j := by omega
    exact ⟨hps, by omega, by rw [hdiv, hmod]; exact hb⟩
  · rintro ⟨hps, hlen, hb⟩
    exact ⟨p / 8, hlen, p % 8, by omega, by omega, hps, hb⟩

/-- C7: `DecodeBitVector` decodes LSB-first within each byte and truncates
at the declared size: a position is returned iff it is strictly below
`size` and its bit (bit `p % 8` of byte `p / 8`) is set — so no returned
position ever reaches `size`, for any input bytes — and on one byte with
size 8, `0x05` yields {0, 2}, `0x80` yields {7} and `0x55` yields
{0, 2, 4, 6}. -/
theorem DecodeBitVector_truncates_and_examples :
    (∀ (bytes : List Nat) (size p : Nat),
      p ∈ DecodeBitVector bytes size ↔
        p < size ∧ p / 8 < bytes.length ∧ Nat.testBit (bytes.getD (p / 8) 0) (p % 8)) ∧
    (∀ (bytes : List Nat) (size p : Nat), p ∈ DecodeBitVector bytes size → p < size) ∧
    DecodeBitVector [0x05] 8 = [0, 2] ∧
    DecodeBitVector [0x80] 8 = [7] ∧
    DecodeBitVector [0x55] 8 = [0, 2, 4, 6] := by
  refine ⟨fun _ _ _ => mem_DecodeBitVector, fun _ _ _ h => (mem_DecodeBitVector.mp h).1,
    by decide, by decide, by decide⟩

/-- Witness for C7: the theorem applied at `0x05`, size 8, position 2. -/
theorem DecodeBitVector_truncates_witness :
    2 ∈ DecodeBitVector [0x05] 8 ∧ 2 < 8 :=
  ⟨by decide, DecodeBitVector_truncates_and_examples.2.1 [0x05] 8 2 (by decide)⟩

/-! ## Beacon clock theorems -/

/-- C8: beacon clock arithmetic. The current slot at wall time `now` is
`⌊(now − genesis) / seconds_per_slot⌋` clamped to 0 pre-genesis; slot→epoch
is integer division and epoch→first-slot multiplication; the slot end time
is `genesis + s·sps + sps + lag` (within uint64 range); and on the mainnet
parameters, wall time `genesis + 32·12` gives slot 32, epoch 1, first slot
of its epoch. -/
theorem beaconClock_arithmetic :
    (∀ (c : BeaconClock) (now : Nat), 0 < c.secondsPerSlot →
      (CurrentSlot c now : ℤ) =
        max 0 ⌊((now : ℚ) - (c.genesisTime : ℚ)) / (c.secondsPerSlot : ℚ)⌋) ∧
    (∀ (c : BeaconClock) (now : Nat), now < c.genesisTime → CurrentSlot c now = 0) ∧
    (∀ (c : BeaconClock) (slot : Slot), SlotToEpoch c slot = slot / c.slotsPerEpoch) ∧
    (∀ (c : BeaconClock) (epoch : Epoch), epoch * c.slotsPerEpoch < 2 ^ 64 →
      EpochToSlot c epoch = epoch * c.slotsPerEpoch) ∧
    (∀ (c : BeaconClock) (slot : Slot),
      c.genesisTime + slot * c.secondsPerSlot + c.secondsPerSlot + c.slotLagSeconds < 2 ^ 64 →
      SlotEndTime c slot =
        c.genesisTime + slot * c.secondsPerSlot + c.secondsPerSlot + c.slotLagSeconds) ∧
    (CurrentSlot ⟨1606824023, 12, 32, 8⟩ (1606824023 + 32 * 12) = 32 ∧
      CurrentEpoch ⟨1606824023, 12, 32, 8⟩ (1606824023 + 32 * 12) = 1 ∧
      IsFirstSlotOfEpoch ⟨1606824023, 12, 32, 8⟩ 32 = true) := by
  refine ⟨?_, ?_, ?_, ?_, ?_, by decide, by decide, by decide⟩
  · intro c now h
    by_cases hlt : now < c.genesisTime
    · rw [CurrentSlot, if_pos hlt]
      have hnum : (now : ℚ) - (c.genesisTime : ℚ) < 0 := by
        have : (now : ℚ) < (c.genesisTime : ℚ) := by exact_mod_cast hlt
        linarith
      have hden : (0 : ℚ) < (c.secondsPerSlot : ℚ) := by exact_mod_cast h
      have hq : ((now : ℚ) - (c.genesisTime : ℚ)) / (c.secondsPerSlot : ℚ) < 0 :=
        div_neg_of_neg_of_pos hnum hden
      have hfl : ⌊((now : ℚ) - (c.genesisTime : ℚ)) / (c.secondsPerSlot : ℚ)⌋ ≤ 0 :=
        Int.floor_nonpos hq.le
      simp [max_eq_left hfl]
    · push_neg at hlt
      rw [CurrentSlot, if_neg (not_lt.mpr hlt)]
      have hcast : (now : ℚ) - (c.genesisTime : ℚ) = ((now - c.genesisTime : Nat) : ℚ) := by
        rw [Nat.cast_sub hlt]
      rw [hcast, Rat.floor_natCast_div_natCast, ← Int.natCast_div]
      exact (max_eq_right (Int.natCast_nonneg _)).symm
  · intro c now h
    rw [CurrentSlot, if_pos h]
  · intro c slot
    rfl
  · intro c epoch h
    exact Nat.mod_eq_of_lt h
  · intro c slot h
    exact Nat.mod_eq_of_lt h

/-- Witness for C8: the floor characterization applied on the mainnet
parameters at the epoch-1 boundary. -/
theorem beaconClock_arithmetic_witness :
    (0 : Nat) < 12 ∧
    (CurrentSlot ⟨1606824023, 12, 32, 8⟩ 1606824407 : ℤ) =
      max 0 ⌊((1606824407 : ℚ) - (1606824023 : ℚ)) / (12 : ℚ)⌋ := by
  refine ⟨by norm_num, ?_⟩
  have h := beaconClock_arithmetic.1 ⟨1606824023, 12, 32, 8⟩ 1606824407 (by norm_num)
  simpa using h

/-! ## Registry mutation theorems -/

/-- C10: `UpdateMetrics` returns an error and leaves the registry
unchanged when the index is not registered; on a registered index it
returns no error, applies the mutator to exactly that entry and leaves
every other entry unchanged. -/
theorem WatchedValidatorsUpdateMetrics_spec :
    ∀ (wv : WatchedValidators) (index : ValidatorIndex)
      (fn : WatchedValidator → WatchedValidator),
      (alFind wv.validators index = none →
        (WatchedValidatorsUpdateMetrics wv index fn).1.isSome = true ∧
        (WatchedValidatorsUpdateMetrics wv index fn).2 = wv) ∧
      (∀ v, alFind wv.validators index = some v →
        (WatchedValidatorsUpdateMetrics wv index fn).1 = none ∧
        alFind (WatchedValidatorsUpdateMetrics wv index fn).2.validators index = some (fn v) ∧
        ∀ j, j ≠ index →
          alFind (WatchedValidatorsUpdateMetrics wv index fn).2.validators j =
            alFind wv.validators j) := by
  intro wv index fn
  constructor
  · intro h
    simp [WatchedValidatorsUpdateMetrics, h]
  · intro v h
    refine ⟨?_, ?_, ?_⟩
    · simp [WatchedValidatorsUpdateMetrics, h]
    · simp only [WatchedValidatorsUpdateMetrics, h]
      exact alFind_alInsert_self _ _ _
    · intro j hj
      simp only [WatchedValidatorsUpdateMetrics, h]
      exact alFind_alInsert_ne _ _ _ _ hj

/-- Witness for C10: the error case at unknown index 999 and the success
case at registered index 100 on the sample registry. -/
theorem WatchedValidatorsUpdateMetrics_spec_witness :
    (WatchedValidatorsUpdateMetrics sampleRegistry 999 livenessMissStep).2 = sampleRegistry ∧
    (WatchedValidatorsUpdateMetrics sampleRegistry 100 livenessMissStep).1 = none :=
  ⟨((WatchedValidatorsUpdateMetrics_spec sampleRegistry 999 livenessMissStep).1 (by rfl)).2,
   ((WatchedValidatorsUpdateMetrics_spec sampleRegistry 100 livenessMissStep).2
      sampleWatched (by rfl)).1⟩

/-! ## Counter exposition theorems -/

theorem if_sub_cast_eq_max (a b : Nat) :
    (((if b ≤ a then a - b else 0) : Nat) : ℤ) = max 0 ((a : ℤ) - (b : ℤ)) := by
  split_ifs with h
  · have h' : (0 : ℤ) ≤ (a : ℤ) - (b : ℤ) := by
      have : (b : ℤ) ≤ (a : ℤ) := by exact_mod_cast h
      omega
    rw [max_eq_right h', Nat.cast_sub h]
  · have h' : (a : ℤ) - (b : ℤ) ≤ 0 := by
      have : (a : ℤ) < (b : ℤ) := by exact_mod_cast Nat.lt_of_not_le h
      omega
    rw [max_eq_left h']
    simp

/-- C1 counterexample: for the scope observing registry totals 7, then 10,
then 2, the third publish cycle adds 0 to the exported counter, not the 2
the claim requires (the exported total stays at 10 instead of reaching
12). -/
theorem counterDelta_reset_cex :
    (runPublishCycles [⟨7, 0, 0, 0⟩, ⟨10, 0, 0, 0⟩, ⟨2, 0, 0, 0⟩]).exported.proposedBlocks =
      (runPublishCycles [⟨7, 0, 0, 0⟩, ⟨10, 0, 0, 0⟩]).exported.proposedBlocks + 0 ∧
    ¬ ((runPublishCycles [⟨7, 0, 0, 0⟩, ⟨10, 0, 0, 0⟩, ⟨2, 0, 0, 0⟩]).exported.proposedBlocks =
        (runPublishCycles [⟨7, 0, 0, 0⟩, ⟨10, 0, 0, 0⟩]).exported.proposedBlocks + 2) := by
  decide

/-- C1 (amended): each publish cycle adds `delta = max(0, current −
last_seen)` to the exported counter for each of the four block counters —
so a registry decrease adds 0, and only the very first observation of a
scope adds `current` — and stores `current` as the new last-seen; the
sequence 7, 10, 2 therefore increments the exported counter by 7, then 3,
then 0. -/
theorem counterDelta_spec :
    (∀ (last current : CounterValues),
      ((counterDeltas (some last) current).proposedBlocks : ℤ) =
        max 0 ((current.proposedBlocks : ℤ) - (last.proposedBlocks : ℤ)) ∧
      ((counterDeltas (some last) current).missedBlocks : ℤ) =
        max 0 ((current.missedBlocks : ℤ) - (last.missedBlocks : ℤ)) ∧
      ((counterDeltas (some last) current).proposedBlocksFinalized : ℤ) =
        max 0 ((current.proposedBlocksFinalized : ℤ) - (last.proposedBlocksFinalized : ℤ)) ∧
      ((counterDeltas (some last) current).missedBlocksFinalized : ℤ) =
        max 0 ((current.missedBlocksFinalized : ℤ) - (last.missedBlocksFinalized : ℤ))) ∧
    (∀ current, counterDeltas none current = current) ∧
    (∀ (s : ExportedCounterState) (current : CounterValues),
      (publishCounters s current).lastSeen = some current ∧
      (publishCounters s current).exported =
        counterAdd s.exported (counterDeltas s.lastSeen current)) ∧
    ((runPublishCycles [⟨7, 0, 0, 0⟩]).exported.proposedBlocks = 7 ∧
      (runPublishCycles [⟨7, 0, 0, 0⟩, ⟨10, 0, 0, 0⟩]).exported.proposedBlocks = 10 ∧
      (runPublishCycles [⟨7, 0, 0, 0⟩, ⟨10, 0, 0, 0⟩, ⟨2, 0, 0, 0⟩]).exported.proposedBlocks
        = 10) := by
  refine ⟨?_, fun _ => rfl, fun _ _ => ⟨rfl, rfl⟩, by decide, by decide, by decide⟩
  intro last current
  exact ⟨if_sub_cast_eq_max _ _, if_sub_cast_eq_max _ _, if_sub_cast_eq_max _ _,
    if_sub_cast_eq_max _ _⟩

/-! ## Reward diff theorems -/

/-- C6: the reward diff engine picks the ideal record whose
effective-balance bucket equals the validator's effective balance, falling
back to the 32·10⁹ bucket and then to any available bucket; each
suboptimal flag is set iff the signed total component is below the ideal
component; `ideal_total` and `actual_total` are the component sums
(unsigned resp. signed); validators absent from the total list are
skipped; and applying the result overwrites the two reward counters while
incrementing exactly the suboptimal counters whose flag is set. -/
theorem ProcessRewards_spec :
    (∀ (im : List (Gwei × IdealReward)) (eb : Gwei) (i : IdealReward),
      alFind im eb = some i → pickIdeal im eb = i) ∧
    (∀ (im : List (Gwei × IdealReward)) (eb : Gwei) (i : IdealReward),
      alFind im eb = none → alFind im 32000000000 = some i → pickIdeal im eb = i) ∧
    (∀ (im : List (Gwei × IdealReward)) (eb : Gwei),
      alFind im eb = none → alFind im 32000000000 = none → im ≠ [] →
      ∃ p ∈ im, pickIdeal im eb = p.2) ∧
    (∀ (ideal : IdealReward) (total : TotalReward),
      ((mkRewardData ideal total).suboptimalSource = true ↔
        total.source < (ideal.source : Int)) ∧
      ((mkRewardData ideal total).suboptimalTarget = true ↔
        total.target < (ideal.target : Int)) ∧
      ((mkRewardData ideal total).suboptimalHead = true ↔
        total.head < (ideal.head : Int)) ∧
      (mkRewardData ideal total).idealTotal = ideal.source + ideal.target + ideal.head ∧
      (mkRewardData ideal total).actualTotal = total.source + total.target + total.head) ∧
    (∀ (rewards : RewardsResponse) (idx : ValidatorIndex) (eb : Gwei) (total : TotalReward),
      alFind (totalMapOf rewards.totalRewards) idx = some total →
      ProcessRewards rewards [(idx, eb)] =
        [(idx, mkRewardData (pickIdeal (idealMapOf rewards.idealRewards) eb) total)]) ∧
    (∀ (rewards : RewardsResponse) (idx : ValidatorIndex) (eb : Gwei),
      alFind (totalMapOf rewards.totalRewards) idx = none →
      ProcessRewards rewards [(idx, eb)] = []) ∧
    (∀ (data : RewardData) (wv : WatchedValidator),
      (applyRewardData data wv).idealConsensusRewards = data.idealTotal ∧
      (applyRewardData data wv).consensusRewards = data.actualTotal ∧
      (applyRewardData data wv).suboptimalSourceVotes =
        wv.suboptimalSourceVotes + (if data.suboptimalSource then 1 else 0) ∧
      (applyRewardData data wv).suboptimalTargetVotes =
        wv.suboptimalTargetVotes + (if data.suboptimalTarget then 1 else 0) ∧
      (applyRewardData data wv).suboptimalHeadVotes =
        wv.suboptimalHeadVotes + (if data.suboptimalHead then 1 else 0)) := by
  refine ⟨?_, ?_, ?_, ?_, ?_, ?_, ?_⟩
  · intro im eb i h
    simp [pickIdeal, h]
  · intro im eb i h h32
    simp [pickIdeal, h, h32]
  · intro im eb h h32 hne
    cases im with
    | nil => exact absurd rfl hne
    | cons p rest =>
        refine ⟨p, List.mem_cons_self _ _, ?_⟩
        simp [pickIdeal, h, h32]
  · intro ideal total
    refine ⟨?_, ?_, ?_, rfl, rfl⟩ <;> simp [mkRewardData]
  · intro rewards idx eb total h
    simp [ProcessRewards, h]
  · intro rewards idx eb h
    simp [ProcessRewards, h]
  · intro data wv
    refine ⟨rfl, rfl, ?_, ?_, ?_⟩ <;> simp [applyRewardData] <;> split_ifs <;> simp

/-- Witness for C6: the spec's suboptimal-reward scenario — ideal
{source 3000, target 2000, head 1000} at the 32·10⁹ bucket, actual
{source 2500, target 2000, head 900} for validator 100. -/
theorem ProcessRewards_spec_witness :
    pickIdeal (idealMapOf [⟨32000000000, 1000, 2000, 3000⟩]) 32000000000 =
      ⟨32000000000, 1000, 2000, 3000⟩ ∧
    ProcessRewards ⟨[⟨32000000000, 1000, 2000, 3000⟩], [⟨100, 900, 2000, 2500⟩]⟩
        [(100, 32000000000)] =
      [(100, mkRewardData ⟨32000000000, 1000, 2000, 3000⟩ ⟨100, 900, 2000, 2500⟩)] ∧
    (mkRewardData ⟨32000000000, 1000, 2000, 3000⟩ ⟨100, 900, 2000, 2500⟩).idealTotal =
      3000 + 2000 + 1000 := by
  refine ⟨ProcessRewards_spec.1 _ _ _ (by rfl), ?_, ?_⟩
  · have h := (ProcessRewards_spec.2.2.2.2.1)
      ⟨[⟨32000000000, 1000, 2000, 3000⟩], [⟨100, 900, 2000, 2500⟩]⟩ 100 32000000000
      ⟨100, 900, 2000, 2500⟩ (by rfl)
    simpa using h
  · exact (ProcessRewards_spec.2.2.2.1 ⟨32000000000, 1000, 2000, 3000⟩
      ⟨100, 900, 2000, 2500⟩).2.2.2.1

/-! ## Attestation-duty bookkeeping theorems -/

theorem updateMetrics_snd_of_none (wv : WatchedValidators) (idx : ValidatorIndex)
    (fn : WatchedValidator → WatchedValidator) (h : alFind wv.validators idx = none) :
    (WatchedValidatorsUpdateMetrics wv idx fn).2 = wv := by
  unfold WatchedValidatorsUpdateMetrics
  rw [h]

theorem updateMetrics_snd_of_some (wv : WatchedValidators) (idx : ValidatorIndex)
    (fn : WatchedValidator → WatchedValidator) (v : WatchedValidator)
    (h : alFind wv.validators idx = some v) :
    (WatchedValidatorsUpdateMetrics wv idx fn).2 =
      { wv with validators := alInsert wv.validators idx (fn v) } := by
  unfold WatchedValidatorsUpdateMetrics
  rw [h]

theorem lookup_updateMetrics_ne (wv : WatchedValidators) (idx j : ValidatorIndex)
    (fn : WatchedValidator → WatchedValidator) (hne : j ≠ idx) :
    alFind (WatchedValidatorsUpdateMetrics wv idx fn).2.validators j =
      alFind wv.validators j := by
  cases h : alFind wv.validators idx with
  | none => rw [updateMetrics_snd_of_none _ _ _ h]
  | some v =>
      rw [updateMetrics_snd_of_some _ _ _ _ h]
      exact alFind_alInsert_ne _ _ _ _ hne

theorem processAttestationDuties_not_mem (dutySet : List ValidatorIndex)
    (attested : ValidatorIndex → Bool) :
    ∀ (reg : WatchedValidators) (v : ValidatorIndex), v ∉ dutySet →
      alFind (processAttestationDuties dutySet attested reg).validators v =
        alFind reg.validators v := by
  induction dutySet with
  | nil => intro reg v _; rfl
  | cons i rest ih =>
      intro reg v hv
      have hvi : v ≠ i := fun h => hv (h ▸ List.mem_cons_self _ _)
      have hvrest : v ∉ rest := fun h => hv (List.mem_cons_of_mem _ h)
      calc alFind (processAttestationDuties (i :: rest) attested reg).validators v
          = alFind ((WatchedValidatorsUpdateMetrics reg i
              (attestationDutyStep (attested i))).2).validators v := ih _ _ hvrest
        _ = alFind reg.validators v := lookup_updateMetrics_ne _ _ _ _ hvi

theorem processAttestationDuties_mem (dutySet : List ValidatorIndex)
    (attested : ValidatorIndex → Bool) :
    ∀ (reg : WatchedValidators) (v : ValidatorIndex) (wv : WatchedValidator),
      dutySet.Nodup → v ∈ dutySet → alFind reg.validators v = some wv →
      alFind (processAttestationDuties dutySet attested reg).validators v =
        some (attestationDutyStep (attested v) wv) := by
  induction dutySet with
  | nil => intro reg v wv _ hv; cases hv
  | cons i rest ih =>
      intro reg v wv hnd hv hfind
      rcases List.nodup_cons.mp hnd with ⟨hirest, hndrest⟩
      rcases List.mem_cons.mp hv with rfl | hvrest
      · have hstep : alFind ((WatchedValidatorsUpdateMetrics reg v
            (attestationDutyStep (attested v))).2).validators v =
              some (attestationDutyStep (attested v) wv) := by
          rw [updateMetrics_snd_of_some _ _ _ _ hfind]
          exact alFind_alInsert_self _ _ _
        calc alFind (processAttestationDuties (v :: rest) attested reg).validators v
            = alFind ((WatchedValidatorsUpdateMetrics reg v
                (attestationDutyStep (attested v))).2).validators v :=
              processAttestationDuties_not_mem _ _ _ _ hirest
          _ = some (attestationDutyStep (attested v) wv) := hstep
      · have hvi : v ≠ i := fun h => hirest (h ▸ hvrest)
        exact ih _ _ _ hndrest hvrest
          ((lookup_updateMetrics_ne reg i v _ hvi).trans hfind)

theorem processAttestationDuties_pointwise {P : WatchedValidator → Prop}
    (hP : ∀ (b : Bool) (w : WatchedValidator), P w → P (attestationDutyStep b w))
    (dutySet : List ValidatorIndex) (attested : ValidatorIndex → Bool) :
    ∀ (reg : WatchedValidators),
      (∀ j w, alFind reg.validators j = some w → P w) →
      ∀ j w', alFind (processAttestationDuties dutySet attested reg).validators j = some w' →
        P w' := by
  induction dutySet with
  | nil => intro reg hreg; exact hreg
  | cons i rest ih =>
      intro reg hreg
      refine ih _ ?_
      intro j w hw
      simp only at hw
      cases h : alFind reg.validators i with
      | none =>
          rw [updateMetrics_snd_of_none _ _ _ h] at hw
          exact hreg _ _ hw
      | some v =>
          rw [updateMetrics_snd_of_some _ _ _ _ h] at hw
          by_cases hji : j = i
          · subst hji
            simp only at hw
            rw [alFind_alInsert_self] at hw
            injection hw with hw
            exact hw ▸ hP _ _ (hreg _ _ h)
          · simp only at hw
            rw [alFind_alInsert_ne _ _ _ _ hji] at hw
            exact hreg _ _ hw

/-- C5: for every slot `s ≥ 1`, processing slot `s` gives each watched
validator appearing in a committee roster of slot `s − 1` exactly one duty
update: `attestation_duties` rises by exactly one, and either (validator
in the attested set) `attestation_duties_success` rises by one and
`consecutive_missed_attestations` resets to 0, or (otherwise)
`consecutive_missed_attestations` rises by one with the success counter
unchanged; `attestation_duties_success ≤ attestation_duties` is preserved
registry-wide by the slot processing and by every individual counter
mutation (duty step, block steps, liveness step, reward application). -/
theorem processAttestations_duty_accounting :
    (∀ (slot : Slot) (attestations : List Attestation) (committees : List Committee)
       (reg : WatchedValidators) (v : ValidatorIndex) (wv : WatchedValidator),
      1 ≤ slot →
      v ∈ (committees.map (·.validators)).flatten →
      alFind reg.validators v = some wv →
      ∃ wv',
        alFind (watcherProcessAttestations slot attestations committees reg).validators v =
          some wv' ∧
        wv'.attestationDuties = wv.attestationDuties + 1 ∧
        (v ∈ ProcessAttestations
            (attestations.filter fun a => decide (a.data.slot = slot - 1)) committees →
          wv'.attestationDutiesSuccess = wv.attestationDutiesSuccess + 1 ∧
          wv'.consecutiveMissedAttest = 0) ∧
        (v ∉ ProcessAttestations
            (attestations.filter fun a => decide (a.data.slot = slot - 1)) committees →
          wv'.consecutiveMissedAttest = wv.consecutiveMissedAttest + 1 ∧
          wv'.attestationDutiesSuccess = wv.attestationDutiesSuccess) ∧
        (wv.attestationDutiesSuccess ≤ wv.attestationDuties →
          wv'.attestationDutiesSuccess ≤ wv'.attestationDuties)) ∧
    (∀ (slot : Slot) (attestations : List Attestation) (committees : List Committee)
       (reg : WatchedValidators),
      (∀ j w, alFind reg.validators j = some w →
        w.attestationDutiesSuccess ≤ w.attestationDuties) →
      ∀ j w', alFind (watcherProcessAttestations slot attestations committees reg).validators j
          = some w' → w'.attestationDutiesSuccess ≤ w'.attestationDuties) ∧
    (∀ (w : WatchedValidator), w.attestationDutiesSuccess ≤ w.attestationDuties →
      ((blockProposedStep w).attestationDutiesSuccess ≤
          (blockProposedStep w).attestationDuties ∧
        (blockMissedStep w).attestationDutiesSuccess ≤ (blockMissedStep w).attestationDuties ∧
        (livenessMissStep w).attestationDutiesSuccess ≤
          (livenessMissStep w).attestationDuties)) ∧
    (∀ (data : RewardData) (w : WatchedValidator),
      w.attestationDutiesSuccess ≤ w.attestationDuties →
      (applyRewardData data w).attestationDutiesSuccess ≤
        (applyRewardData data w).attestationDuties) := by
  have hstep : ∀ (b : Bool) (w : WatchedValidator),
      w.attestationDutiesSuccess ≤ w.attestationDuties →
      (attestationDutyStep b w).attestationDutiesSuccess ≤
        (attestationDutyStep b w).attestationDuties := by
    intro b w hw
    cases b <;> simp [attestationDutyStep] <;> omega
  refine ⟨?_, ?_, ?_, ?_⟩
  · intro slot attestations committees reg v wv hslot hmem hfind
    have hne : ¬ slot = 0 := Nat.one_le_iff_ne_zero.mp hslot
    rw [watcherProcessAttestations, if_neg hne]
    have hmem' : v ∈ dutySetOf committees := by
      rw [dutySetOf, List.mem_dedup]
      exact hmem
    have h := processAttestationDuties_mem (dutySetOf committees)
      (fun idx => decide (idx ∈ ProcessAttestations
        (attestations.filter fun a => decide (a.data.slot = slot - 1)) committees))
      reg v wv (List.nodup_dedup _) hmem' hfind
    refine ⟨_, h, ?_, ?_, ?_, ?_⟩
    · by_cases hin : v ∈ ProcessAttestations
          (attestations.filter fun a => decide (a.data.slot = slot - 1)) committees <;>
        simp [attestationDutyStep, hin]
    · intro hin
      simp [attestationDutyStep, hin]
    · intro hout
      simp [attestationDutyStep, hout]
    · intro hle
      exact hstep _ _ hle
  · intro slot attestations committees reg hreg j w' hw'
    rw [watcherProcessAttestations] at hw'
    split_ifs at hw' with h0
    · exact hreg _ _ hw'
    · exact processAttestationDuties_pointwise hstep _ _ _ hreg _ _ hw'
  · intro w hw
    exact ⟨hw, hw, hw⟩
  · intro data w hw
    exact hw

/-- Witness for C5: slot 100, one committee for slot 99 holding validators
10 and 20, one pre-Electra attestation with bit 0 set, and the one-entry
registry watching validator 10 — validator 10's duty counter rises by
one. -/
theorem processAttestations_duty_accounting_witness :
    ∃ wv', alFind (watcherProcessAttestations 100 [⟨[1], [], ⟨99, 0⟩⟩]
        [⟨0, 99, [10, 20]⟩] dutyRegistry).validators 10 = some wv' ∧
      wv'.attestationDuties = dutyWatched.attestationDuties + 1 := by
  obtain ⟨wv', h1, h2, -, -, -⟩ := processAttestations_duty_accounting.1 100
    [⟨[1], [], ⟨99, 0⟩⟩] [⟨0, 99, [10, 20]⟩] dutyRegistry 10 dutyWatched
    (by norm_num) (by decide) (by rfl)
  exact ⟨wv', h1, h2⟩

/-! ## Electra attestation-attribution theorems -/

theorem markActiveCommittees_eq (cs : List Committee) (bits : List Nat) :
    ∀ offset, markActiveCommittees cs bits offset =
      (List.range ((cs.map (·.validators)).flatten.length)).filterMap
        fun g => if offset + g ∈ bits then (cs.map (·.validators)).flatten.get? g
          else none := by
  induction cs with
  | nil => intro offset; rfl
  | cons c rest ih =>
      intro offset
      simp only [markActiveCommittees, List.map_cons, List.flatten_cons, List.length_append,
        List.range_add, List.filterMap_append, List.filterMap_map]
      congr 1
      · refine List.filterMap_congr ?_
        intro g hg
        rw [List.mem_range] at hg
        rw [List.get?_append hg]
      · rw [ih (offset + c.validators.length)]
        refine List.filterMap_congr ?_
        intro g _
        have h1 : offset + c.validators.length + g = offset + (c.validators.length + g) := by
          omega
        have h2 : (c.validators ++ (rest.map (·.validators)).flatten).get?
            (c.validators.length + g) = ((rest.map (·.validators)).flatten).get? g := by
          rw [List.get?_append_right (by omega)]
          congr 1
          omega
        simp only [Function.comp, h1, h2]

/-- C4: for a post-Electra attestation (non-empty committee bits), the
attested set is computed against the virtual roster obtained by
concatenating the active committees' validator lists in committee-index
order: the validator at global roster position `g` is marked iff bit `g`
of `aggregation_bits`, decoded at exactly the roster length, is set; on
committee bits `0x03` with committees [10,20,30,40] and [50,60,70,80] and
aggregation bits `0x85`, the attested set is exactly {10, 30, 80}. -/
theorem electra_attribution :
    (∀ (committees : List Committee) (att : Attestation),
      att.committeeBits ≠ [] →
      activeCommittees committees (DecodeBitVector att.committeeBits 64) ≠ [] →
      processOneAttestation committees att =
        (List.range (((activeCommittees committees
            (DecodeBitVector att.committeeBits 64)).map (·.validators)).flatten.length)).filterMap
          fun g =>
            if g ∈ DecodeBitVector att.aggregationBits
                (((activeCommittees committees
                  (DecodeBitVector att.committeeBits 64)).map (·.validators)).flatten.length) then
              ((activeCommittees committees
                (DecodeBitVector att.committeeBits 64)).map (·.validators)).flatten.get? g
            else none) ∧
    ProcessAttestations [⟨[0x85], [0x03], ⟨100, 0⟩⟩]
      [⟨0, 100, [10, 20, 30, 40]⟩, ⟨1, 100, [50, 60, 70, 80]⟩] = [10, 30, 80] := by
  constructor
  · intro committees att h1 h2
    have htot : ((activeCommittees committees (DecodeBitVector att.committeeBits 64)).map
        (fun c => c.validators.length)).sum =
        ((activeCommittees committees
          (DecodeBitVector att.committeeBits 64)).map (·.validators)).flatten.length := by
      rw [List.length_flatten, List.map_map]
      rfl
    show (if att.committeeBits = [] then _ else _) = _
    rw [if_neg h1]
    show (if activeCommittees committees (DecodeBitVector att.committeeBits 64) = []
        then ([] : List ValidatorIndex)
        else markActiveCommittees
          (activeCommittees committees (DecodeBitVector att.committeeBits 64))
          (DecodeBitVector att.aggregationBits
            (((activeCommittees committees (DecodeBitVector att.committeeBits 64)).map
              (fun c => c.validators.length)).sum)) 0) = _
    rw [if_neg h2, htot, markActiveCommittees_eq]
    refine List.filterMap_congr ?_
    intro g _
    rw [Nat.zero_add]
  · decide

/-- Witness for C4: the general roster characterization applied to the
spec's Electra scenario. -/
theorem electra_attribution_witness :
    processOneAttestation [⟨0, 100, [10, 20, 30, 40]⟩, ⟨1, 100, [50, 60, 70, 80]⟩]
        ⟨[0x85], [0x03], ⟨100, 0⟩⟩ =
      (List.range 8).filterMap fun g =>
        if g ∈ DecodeBitVector [0x85] 8 then
          ([10, 20, 30, 40, 50, 60, 70, 80] : List ValidatorIndex).get? g
        else none := by
  have h := electra_attribution.1
    [⟨0, 100, [10, 20, 30, 40]⟩, ⟨1, 100, [50, 60, 70, 80]⟩]
    ⟨[0x85], [0x03], ⟨100, 0⟩⟩ (by decide) (by decide)
  exact h

/-! ## Registry `Update` theorems -/

theorem alFind_eq_none_iff {κ ω : Type} [DecidableEq κ] (m : List (κ × ω)) (k : κ) :
    alFind m k = none ↔ k ∉ alKeys m := by
  induction m with
  | nil => simp [alFind, alKeys]
  | cons p rest ih =>
      by_cases h : p.1 = k
      · simp [alFind_cons, h, alKeys]
      · simp [alFind_cons, h, alKeys, ih, Ne.symm h]

theorem alKeys_alInsert {κ ω : Type} [DecidableEq κ] (m : List (κ × ω)) (k : κ) (v : ω) :
    alKeys (alInsert m k v) =
      if (alFind m k).isSome then alKeys m else alKeys m ++ [k] := by
  unfold alInsert
  split
  · simp only [alKeys, List.map_map]
    refine List.map_congr_left ?_
    intro p _
    by_cases h : p.1 = k <;> simp [h]
  · simp [alKeys]

theorem nodup_alKeys_alInsert {κ ω : Type} [DecidableEq κ] {m : List (κ × ω)} {k : κ}
    {v : ω} (h : (alKeys m).Nodup) : (alKeys (alInsert m k v)).Nodup := by
  rw [alKeys_alInsert]
  split
  · exact h
  · next hnone =>
      have hk : k ∉ alKeys m :=
        (alFind_eq_none_iff m k).mp (Option.not_isSome_iff_eq_none.mp hnone)
      simp [List.nodup_append, h, hk]

theorem alFind_of_mem_nodup {κ ω : Type} [DecidableEq κ] :
    ∀ (m : List (κ × ω)) (k : κ) (v : ω), (alKeys m).Nodup → (k, v) ∈ m →
      alFind m k = some v := by
  intro m
  induction m with
  | nil => intro k v _ hm; cases hm
  | cons p rest ih =>
      intro k v hnd hm
      have hnd' := List.nodup_cons.mp (show (p.1 :: alKeys rest).Nodup from hnd)
      rcases List.mem_cons.mp hm with rfl | hmem
      · simp [alFind_cons]
      · have hk : k ∈ alKeys rest := List.mem_map.mpr ⟨(k, v), hmem, rfl⟩
        have hne : p.1 ≠ k := fun h => hnd'.1 (h ▸ hk)
        rw [alFind_cons, if_neg hne]
        exact ih k v hnd'.2 hmem

theorem filterMap_alKeys_eq_alValues {κ ω : Type} [DecidableEq κ] :
    ∀ (m : List (κ × ω)), (alKeys m).Nodup →
      (alKeys m).filterMap (alFind m) = alValues m := by
  intro m
  induction m with
  | nil => intro _; rfl
  | cons p rest ih =>
      intro hnd
      have hnd' := List.nodup_cons.mp (show (p.1 :: alKeys rest).Nodup from hnd)
      show (p.1 :: alKeys rest).filterMap (alFind (p :: rest)) = p.2 :: alValues rest
      rw [List.filterMap_cons]
      have hhead : alFind (p :: rest) p.1 = some p.2 := by simp [alFind_cons]
      rw [hhead]
      have htail : (alKeys rest).filterMap (alFind (p :: rest)) =
          (alKeys rest).filterMap (alFind rest) := by
        refine List.filterMap_congr ?_
        intro k hk
        have hne : p.1 ≠ k := fun h => hnd'.1 (h ▸ hk)
        rw [alFind_cons, if_neg hne]
      rw [htail, ih hnd'.2]

theorem labelAppend_fold_find (L : String) :
    ∀ (ks : List ValidatorIndex) (m : List (String × List ValidatorIndex)), ks ≠ [] →
      alFind (ks.foldl (fun m i => labelAppend m L i) m) L =
        some ((alFind m L).getD [] ++ ks) := by
  intro ks
  induction ks with
  | nil => intro m h; exact absurd rfl h
  | cons k ks' ih =>
      intro m _
      by_cases hks' : ks' = []
      · subst hks'
        show alFind (labelAppend m L k) L = _
        rw [labelAppend, alFind_alInsert_self]
      · rw [List.foldl_cons, ih (labelAppend m L k) hks', labelAppend, alFind_alInsert_self]
        simp

theorem labelAppend_fold_getD (L : String) (ks : List ValidatorIndex)
    (m : List (String × List ValidatorIndex)) :
    (alFind (ks.foldl (fun m i => labelAppend m L i) m) L).getD [] =
      (alFind m L).getD [] ++ ks := by
  cases hks : ks with
  | nil => simp
  | cons k ks' =>
      rw [← hks, labelAppend_fold_find L ks m (by simp [hks])]
      rfl

theorem getByLabel_eq (reg : WatchedValidators) (label : String) :
    GetByLabel reg label =
      ((alFind reg.labels label).getD []).filterMap fun idx => alFind reg.validators idx := by
  unfold GetByLabel
  cases h : alFind reg.labels label <;> simp [h]

theorem configMapOf_mem (config : List WatchedKey) :
    ∀ p ∈ configMapOf config, p.2 ∈ config := by
  suffices h : ∀ (l : List WatchedKey) (acc : List (String × WatchedKey)),
      (∀ p ∈ acc, p.2 ∈ config) → (∀ wk ∈ l, wk ∈ config) →
      ∀ p ∈ l.foldl (fun m wk => alInsert m wk.publicKey wk) acc, p.2 ∈ config by
    exact h config [] (by simp) (fun _ hw => hw)
  intro l
  induction l with
  | nil => intro acc hacc _; exact hacc
  | cons wk l' ih =>
      intro acc hacc hl p hp
      refine ih _ ?_ (fun w hw => hl w (List.mem_cons_of_mem _ hw)) p hp
      intro q hq
      rcases mem_alInsert hq with hq' | rfl
      · exact hacc _ hq'
      · exact hl wk (List.mem_cons_self _ _)

theorem updateMainLoop_validators_nodup (validators : List Validator)
    (config : List WatchedKey) :
    (alKeys (updateMainLoop validators config).validators).Nodup := by
  suffices h : ∀ (vs : List Validator) (acc : WatchedValidators),
      (alKeys acc.validators).Nodup →
      (alKeys ((vs.foldl (fun wv v =>
        match alFind (configMapOf config) v.pubkey with
        | none => wv
        | some cfg => insertWatched wv v cfg) acc).validators)).Nodup by
    exact h validators _ (by simp [alKeys])
  intro vs
  induction vs with
  | nil => intro acc h; exact h
  | cons v vs' ih =>
      intro acc h
      rw [List.foldl_cons]
      apply ih
      cases hc : alFind (configMapOf config) v.pubkey with
      | none => exact h
      | some cfg => exact nodup_alKeys_alInsert h

theorem updateMainLoop_entry_labels (validators : List Validator)
    (config : List WatchedKey) :
    ∀ p ∈ (updateMainLoop validators config).validators,
      ∃ wk ∈ config, p.2.labels = "scope:all-network" :: "scope:watched" :: wk.labels := by
  suffices h : ∀ (vs : List Validator) (acc : WatchedValidators),
      (∀ p ∈ acc.validators,
        ∃ wk ∈ config, p.2.labels = "scope:all-network" :: "scope:watched" :: wk.labels) →
      ∀ p ∈ ((vs.foldl (fun wv v =>
        match alFind (configMapOf config) v.pubkey with
        | none => wv
        | some cfg => insertWatched wv v cfg) acc).validators),
        ∃ wk ∈ config, p.2.labels = "scope:all-network" :: "scope:watched" :: wk.labels by
    exact h validators _ (by intro p hp; cases hp)
  intro vs
  induction vs with
  | nil => intro acc hacc; exact hacc
  | cons v vs' ih =>
      intro acc hacc
      rw [List.foldl_cons]
      apply ih
      cases hc : alFind (configMapOf config) v.pubkey with
      | none => exact hacc
      | some cfg =>
          intro p hp
          rcases mem_alInsert hp with hp' | rfl
          · exact hacc _ hp'
          · exact ⟨cfg, configMapOf_mem config _ (alFind_some_mem hc), rfl⟩

/-- C9: after `Update`, the label index maps "scope:network" to every
watched entry — `GetByLabel "scope:network"` returns exactly the entries
of `GetAll` — even though no entry's `Labels` list contains
"scope:network": each entry's labels are exactly "scope:all-network",
"scope:watched" and its configured user labels, so as long as no user
label is the string "scope:network", the label is absent from every
entry. -/
theorem update_scope_network_index :
    ∀ (validators : List Validator) (config : List WatchedKey),
      (∀ x, x ∈ GetByLabel (WatchedValidatorsUpdate validators config) "scope:network" ↔
        x ∈ GetAll (WatchedValidatorsUpdate validators config)) ∧
      (∀ p ∈ (WatchedValidatorsUpdate validators config).validators,
        ∃ wk ∈ config, p.2.labels = "scope:all-network" :: "scope:watched" :: wk.labels) ∧
      ((∀ wk ∈ config, "scope:network" ∉ wk.labels) →
        ∀ p ∈ (WatchedValidatorsUpdate validators config).validators,
          "scope:network" ∉ p.2.labels) := by
  intro validators config
  have hnd : (alKeys (updateMainLoop validators config).validators).Nodup :=
    updateMainLoop_validators_nodup validators config
  have hlabels := updateMainLoop_entry_labels validators config
  refine ⟨?_, hlabels, ?_⟩
  · intro x
    rw [getByLabel_eq]
    show x ∈ ((alFind ((alKeys (updateMainLoop validators config).validators).foldl
        (fun m idx => labelAppend m "scope:network" idx)
        (updateMainLoop validators config).labels) "scope:network").getD []).filterMap
        (fun idx => alFind (updateMainLoop validators config).validators idx) ↔ _
    rw [labelAppend_fold_getD, List.filterMap_append]
    constructor
    · intro hx
      rcases List.mem_append.mp hx with hx | hx
      · rcases List.mem_filterMap.mp hx with ⟨idx, _, hfind⟩
        exact List.mem_map.mpr ⟨_, alFind_some_mem hfind, rfl⟩
      · rw [filterMap_alKeys_eq_alValues _ hnd] at hx
        exact hx
    · intro hx
      refine List.mem_append.mpr (Or.inr ?_)
      rw [filterMap_alKeys_eq_alValues _ hnd]
      exact hx
  · intro hcfg p hp
    rcases hlabels p hp with ⟨wk, hwk, hl⟩
    rw [hl]
    intro hmem
    rcases List.mem_cons.mp hmem with h1 | hmem
    · exact absurd h1 (by decide)
    rcases List.mem_cons.mp hmem with h2 | hmem
    · exact absurd h2 (by decide)
    · exact hcfg wk hwk hmem

/-- Witness for C9: on the sample one-validator registry, the
"scope:network" index returns the watched entry, whose label list avoids
"scope:network". -/
theorem update_scope_network_index_witness :
    (sampleWatched ∈ GetByLabel sampleRegistry "scope:network" ↔
      sampleWatched ∈ GetAll sampleRegistry) ∧
    "scope:network" ∉ sampleWatched.labels := by
  have hmem : ((100 : ValidatorIndex), sampleWatched) ∈ sampleRegistry.validators := by
    show ((100 : ValidatorIndex), sampleWatched) ∈ [((100 : ValidatorIndex), sampleWatched)]
    exact List.mem_singleton.mpr rfl
  constructor
  · exact (update_scope_network_index [sampleValidator] [⟨"0xabc", ["vc:v1"]⟩]).1 sampleWatched
  · exact (update_scope_network_index [sampleValidator] [⟨"0xabc", ["vc:v1"]⟩]).2.2
      (by intro wk hwk; rcases List.mem_singleton.mp hwk with rfl; decide)
      (100, sampleWatched) hmem

/-! ## Metrics aggregation lemmas -/

theorem foldl_proj {β γ M : Type} [AddCommMonoid M] (step : γ → β → γ) (proj : γ → M)
    (contrib : β → M) (hstep : ∀ r v, proj (step r v) = proj r + contrib v) :
    ∀ (ws : List β) (r : γ), proj (ws.foldl step r) = proj r + (ws.map contrib).sum := by
  intro ws
  induction ws with
  | nil => intro r; simp
  | cons w ws ih =>
      intro r
      rw [List.foldl_cons, ih, hstep, List.map_cons, List.sum_cons, add_assoc]

theorem sum_map_ite_filter_bool {α M : Type} [AddCommMonoid M] (l : List α) (p : α → Bool)
    (f : α → M) :
    (l.map fun x => if p x then f x else 0).sum = ((l.filter p).map f).sum := by
  induction l with
  | nil => rfl
  | cons a l ih =>
      by_cases h : p a <;> simp [List.filter_cons, h, ih]

theorem sum_map_ite_filter_prop {α M : Type} [AddCommMonoid M] (l : List α) (p : α → Prop)
    [DecidablePred p] (f : α → M) :
    (l.map fun x => if p x then f x else 0).sum =
      ((l.filter fun x => decide (p x)).map f).sum := by
  induction l with
  | nil => rfl
  | cons a l ih =>
      by_cases h : p a <;> simp [List.filter_cons, h, ih]

theorem sum_map_ones {α : Type} (l : List α) : (l.map fun _ => (1 : Nat)).sum = l.length := by
  induction l with
  | nil => rfl
  | cons a l ih => simp [ih, Nat.add_comm]

theorem alFind_touchLabel_ne (v : WatchedValidator) (acc : List (String × MetricsByLabel))
    (l ℓ : String) (hne : l ≠ ℓ) : alFind (touchLabel v acc l) ℓ = alFind acc ℓ :=
  alFind_alInsert_ne _ _ _ _ (Ne.symm hne)

theorem alFind_touchLabel_self (v : WatchedValidator) (acc : List (String × MetricsByLabel))
    (ℓ : String) :
    alFind (touchLabel v acc ℓ) ℓ =
      some (updateRecord ((alFind acc ℓ).getD (newRecord ℓ)) v) :=
  alFind_alInsert_self _ _ _

theorem alFind_labelFold_not_mem (v : WatchedValidator) (ℓ : String) :
    ∀ (labels : List String) (acc : List (String × MetricsByLabel)), ℓ ∉ labels →
      alFind (labels.foldl (touchLabel v) acc) ℓ = alFind acc ℓ := by
  intro labels
  induction labels with
  | nil => intro acc _; rfl
  | cons l ls ih =>
      intro acc h
      rw [List.foldl_cons, ih _ (fun hm => h (List.mem_cons_of_mem _ hm)),
        alFind_touchLabel_ne _ _ _ _ (fun he => h (by rw [← he]; exact List.mem_cons_self _ _))]

theorem alFind_labelFold (v : WatchedValidator) (ℓ : String) :
    ∀ (labels : List String) (acc : List (String × MetricsByLabel)), labels.Nodup →
      alFind (labels.foldl (touchLabel v) acc) ℓ =
        if ℓ ∈ labels then some (updateRecord ((alFind acc ℓ).getD (newRecord ℓ)) v)
        else alFind acc ℓ := by
  intro labels
  induction labels with
  | nil => intro acc _; rfl
  | cons l ls ih =>
      intro acc hnd
      rcases List.nodup_cons.mp hnd with ⟨hl, hls⟩
      rw [List.foldl_cons]
      by_cases hlℓ : l = ℓ
      · subst hlℓ
        rw [alFind_labelFold_not_mem v l ls _ hl, alFind_touchLabel_self,
          if_pos (List.mem_cons_self _ _)]
      · rw [ih _ hls, alFind_touchLabel_ne _ _ _ _ hlℓ]
        by_cases hmem : ℓ ∈ ls
        · rw [if_pos hmem, if_pos (List.mem_cons_of_mem _ hmem)]
        · rw [if_neg hmem, if_neg (by
            intro hc
            rcases List.mem_cons.mp hc with hc | hc
            · exact hlℓ hc.symm
            · exact hmem hc)]

theorem alFind_computeFold (ℓ : String) :
    ∀ (vs : List WatchedValidator) (acc : List (String × MetricsByLabel)),
      (∀ v ∈ vs, v.labels.Nodup) →
      alFind (vs.foldl processValidator acc) ℓ =
        (vs.filter fun v => decide (ℓ ∈ v.labels)).foldl
          (fun o v => some (updateRecord (o.getD (newRecord ℓ)) v)) (alFind acc ℓ) := by
  intro vs
  induction vs with
  | nil => intro acc _; rfl
  | cons v vs' ih =>
      intro acc hnd
      rw [List.foldl_cons, ih _ (fun w hw => hnd w (List.mem_cons_of_mem _ hw))]
      have hv := alFind_labelFold v ℓ v.labels acc (hnd v (List.mem_cons_self _ _))
      by_cases hmem : ℓ ∈ v.labels
      · rw [List.filter_cons_of_pos (by simpa using hmem), List.foldl_cons]
        show _ = (vs'.filter _).foldl _
          (some (updateRecord ((alFind acc ℓ).getD (newRecord ℓ)) v))
        rw [show alFind (processValidator acc v) ℓ =
          some (updateRecord ((alFind acc ℓ).getD (newRecord ℓ)) v) from hv.trans (if_pos hmem)]
      · rw [List.filter_cons_of_neg (by simpa using hmem)]
        rw [show alFind (processValidator acc v) ℓ = alFind acc ℓ from
          hv.trans (if_neg hmem)]

theorem optFold_some (ℓ : String) :
    ∀ (ws : List WatchedValidator) (r : MetricsByLabel),
      ws.foldl (fun o v => some (updateRecord (o.getD (newRecord ℓ)) v)) (some r) =
        some (ws.foldl (fun r v => updateRecord r v) r) := by
  intro ws
  induction ws with
  | nil => intro r; rfl
  | cons w ws ih =>
      intro r
      rw [List.foldl_cons, List.foldl_cons]
      exact ih _

theorem computeMetrics_find (vs : List WatchedValidator) (ℓ : String)
    (hnd : ∀ v ∈ vs, v.labels.Nodup) :
    alFind (ComputeMetrics vs) ℓ =
      match vs.filter (fun v => decide (ℓ ∈ v.labels)) with
      | [] => none
      | w :: ws => some (applyRates (ws.foldl (fun r v => updateRecord r v)
          (updateRecord (newRecord ℓ) w))) := by
  unfold ComputeMetrics
  rw [alFind_map_value, alFind_computeFold ℓ vs [] hnd, alFind_nil]
  cases hfil : vs.filter (fun v => decide (ℓ ∈ v.labels)) with
  | nil => rfl
  | cons w ws =>
      rw [List.foldl_cons]
      show (ws.foldl _ (some (updateRecord (newRecord ℓ) w))).map applyRates = _
      rw [optFold_some]
      rfl

theorem updateRecord_counters (r : MetricsByLabel) (v : WatchedValidator) :
    (updateRecord r v).proposedBlocks = r.proposedBlocks + v.proposedBlocks ∧
    (updateRecord r v).proposedBlocksFinalized =
      r.proposedBlocksFinalized + v.proposedBlocksFinalized ∧
    (updateRecord r v).missedBlocks = r.missedBlocks + v.missedBlocks ∧
    (updateRecord r v).missedBlocksFinalized = r.missedBlocksFinalized +
      (if isActiveStatus v.validator.status then v.missedBlocksFinalized else 0) ∧
    (updateRecord r v).futureBlockProposals = r.futureBlockProposals +
      (if isActiveStatus v.validator.status then v.futureBlockProposals else 0) ∧
    (updateRecord r v).missedAttestations = r.missedAttestations +
      (if isActiveStatus v.validator.status then v.missedAttestations else 0) ∧
    (updateRecord r v).suboptimalSourceVotes = r.suboptimalSourceVotes +
      (if isActiveStatus v.validator.status then v.suboptimalSourceVotes else 0) ∧
    (updateRecord r v).suboptimalTargetVotes = r.suboptimalTargetVotes +
      (if isActiveStatus v.validator.status then v.suboptimalTargetVotes else 0) ∧
    (updateRecord r v).suboptimalHeadVotes = r.suboptimalHeadVotes +
      (if isActiveStatus v.validator.status then v.suboptimalHeadVotes else 0) ∧
    (updateRecord r v).attestationDuties = r.attestationDuties +
      (if isActiveStatus v.validator.status then v.attestationDuties else 0) ∧
    (updateRecord r v).attestationDutiesSuccess = r.attestationDutiesSuccess +
      (if isActiveStatus v.validator.status then v.attestationDutiesSuccess else 0) ∧
    (updateRecord r v).idealConsensusRewards = r.idealConsensusRewards +
      (if isActiveStatus v.validator.status then v.idealConsensusRewards else 0) ∧
    (updateRecord r v).consensusRewards = r.consensusRewards +
      (if isActiveStatus v.validator.status then v.consensusRewards else 0) := by
  by_cases h : isActiveStatus v.validator.status <;>
    simp [updateRecord, h]

theorem applyRates_counters (r : MetricsByLabel) :
    (applyRates r).proposedBlocks = r.proposedBlocks ∧
    (applyRates r).proposedBlocksFinalized = r.proposedBlocksFinalized ∧
    (applyRates r).missedBlocks = r.missedBlocks ∧
    (applyRates r).missedBlocksFinalized = r.missedBlocksFinalized ∧
    (applyRates r).futureBlockProposals = r.futureBlockProposals ∧
    (applyRates r).missedAttestations = r.missedAttestations ∧
    (applyRates r).suboptimalSourceVotes = r.suboptimalSourceVotes ∧
    (applyRates r).suboptimalTargetVotes = r.suboptimalTargetVotes ∧
    (applyRates r).suboptimalHeadVotes = r.suboptimalHeadVotes ∧
    (applyRates r).attestationDuties = r.attestationDuties ∧
    (applyRates r).attestationDutiesSuccess = r.attestationDutiesSuccess ∧
    (applyRates r).idealConsensusRewards = r.idealConsensusRewards ∧
    (applyRates r).consensusRewards = r.consensusRewards := by
  unfold applyRates applyDutiesRate applyRewardsRate
  split_ifs <;> simp

/-- C2 counterexample: a single watched validator in status
`exited_unslashed` with every block counter at 1 yields a label record
with `MissedBlocksFinalized = 0` and `FutureBlockProposals = 0` (they are
only summed over active validators), while `ProposedBlocks`,
`ProposedBlocksFinalized` and `MissedBlocks` are 1 — refuting the claim
that all five block counters are summed regardless of status. -/
theorem computeMetrics_blockCounters_cex :
    (alFind (ComputeMetrics [cexInactive]) "scope:watched").map (·.missedBlocksFinalized) =
      some 0 ∧
    (alFind (ComputeMetrics [cexInactive]) "scope:watched").map (·.futureBlockProposals) =
      some 0 ∧
    (alFind (ComputeMetrics [cexInactive]) "scope:watched").map (·.proposedBlocks) = some 1 ∧
    (alFind (ComputeMetrics [cexInactive]) "scope:watched").map (·.proposedBlocksFinalized) =
      some 1 ∧
    (alFind (ComputeMetrics [cexInactive]) "scope:watched").map (·.missedBlocks) = some 1 ∧
    cexInactive.missedBlocksFinalized = 1 ∧
    cexInactive.futureBlockProposals = 1 ∧
    isActiveStatus cexInactive.validator.status = false :=
  ⟨rfl, rfl, rfl, rfl, rfl, rfl, rfl, rfl⟩

/-- C2 (amended): in `ComputeMetrics`, for every label record,
`ProposedBlocks`, `ProposedBlocksFinalized` and `MissedBlocks` are summed
over all validators bearing the label regardless of status, while
`MissedBlocksFinalized` and `FutureBlockProposals` — like the performance
counters (missed attestations, suboptimal source/target/head votes,
attestation duties and successes, ideal and actual consensus rewards) —
are summed only over validators whose status is one of {active_ongoing,
active_exiting, active_slashed}. -/
theorem computeMetrics_label_sums :
    ∀ (vs : List WatchedValidator) (ℓ : String) (r : MetricsByLabel),
      (∀ v ∈ vs, v.labels.Nodup) →
      alFind (ComputeMetrics vs) ℓ = some r →
      (r.proposedBlocks =
          ((vs.filter fun v => decide (ℓ ∈ v.labels)).map (·.proposedBlocks)).sum ∧
        r.proposedBlocksFinalized =
          ((vs.filter fun v => decide (ℓ ∈ v.labels)).map (·.proposedBlocksFinalized)).sum ∧
        r.missedBlocks =
          ((vs.filter fun v => decide (ℓ ∈ v.labels)).map (·.missedBlocks)).sum) ∧
      (r.missedBlocksFinalized =
          (((vs.filter fun v => decide (ℓ ∈ v.labels)).filter
            fun v => isActiveStatus v.validator.status).map (·.missedBlocksFinalized)).sum ∧
        r.futureBlockProposals =
          (((vs.filter fun v => decide (ℓ ∈ v.labels)).filter
            fun v => isActiveStatus v.validator.status).map (·.futureBlockProposals)).sum ∧
        r.missedAttestations =
          (((vs.filter fun v => decide (ℓ ∈ v.labels)).filter
            fun v => isActiveStatus v.validator.status).map (·.missedAttestations)).sum ∧
        r.suboptimalSourceVotes =
          (((vs.filter fun v => decide (ℓ ∈ v.labels)).filter
            fun v => isActiveStatus v.validator.status).map (·.suboptimalSourceVotes)).sum ∧
        r.suboptimalTargetVotes =
          (((vs.filter fun v => decide (ℓ ∈ v.labels)).filter
            fun v => isActiveStatus v.validator.status).map (·.suboptimalTargetVotes)).sum ∧
        r.suboptimalHeadVotes =
          (((vs.filter fun v => decide (ℓ ∈ v.labels)).filter
            fun v => isActiveStatus v.validator.status).map (·.suboptimalHeadVotes)).sum ∧
        r.attestationDuties =
          (((vs.filter fun v => decide (ℓ ∈ v.labels)).filter
            fun v => isActiveStatus v.validator.status).map (·.attestationDuties)).sum ∧
        r.attestationDutiesSuccess =
          (((vs.filter fun v => decide (ℓ ∈ v.labels)).filter
            fun v => isActiveStatus v.validator.status).map (·.attestationDutiesSuccess)).sum ∧
        r.idealConsensusRewards =
          (((vs.filter fun v => decide (ℓ ∈ v.labels)).filter
            fun v => isActiveStatus v.validator.status).map (·.idealConsensusRewards)).sum ∧
        r.consensusRewards =
          (((vs.filter fun v => decide (ℓ ∈ v.labels)).filter
            fun v => isActiveStatus v.validator.status).map (·.consensusRewards)).sum) := by
  intro vs ℓ r hnd hfind
  rw [computeMetrics_find vs ℓ hnd] at hfind
  rcases hfil : vs.filter (fun v => decide (ℓ ∈ v.labels)) with _ | ⟨w, ws⟩
  · rw [hfil] at hfind; cases hfind
  · rw [hfil] at hfind
    injection hfind with hr
    subst hr
    have key : ∀ {M : Type} [AddCommMonoid M] (proj : MetricsByLabel → M)
        (contrib : WatchedValidator → M),
        (∀ r v, proj (updateRecord r v) = proj r + contrib v) →
        proj (newRecord ℓ) = 0 →
        (∀ x, proj (applyRates x) = proj x) →
        proj (applyRates (ws.foldl (fun r v => updateRecord r v)
          (updateRecord (newRecord ℓ) w))) = ((w :: ws).map contrib).sum := by
      intro M _ proj contrib hstep hnew hrates
      rw [hrates, foldl_proj _ proj contrib hstep, hstep, hnew, zero_add,
        List.map_cons, List.sum_cons]
    constructor
    · refine ⟨?_, ?_, ?_⟩
      · rw [hfil]
        exact key (·.proposedBlocks) (·.proposedBlocks)
          (fun r v => (updateRecord_counters r v).1) rfl
          (fun x => (applyRates_counters x).1)
      · rw [hfil]
        exact key (·.proposedBlocksFinalized) (·.proposedBlocksFinalized)
          (fun r v => (updateRecord_counters r v).2.1) rfl
          (fun x => (applyRates_counters x).2.1)
      · rw [hfil]
        exact key (·.missedBlocks) (·.missedBlocks)
          (fun r v => (updateRecord_counters r v).2.2.1) rfl
          (fun x => (applyRates_counters x).2.2.1)
    · refine ⟨?_, ?_, ?_, ?_, ?_, ?_, ?_, ?_, ?_, ?_⟩
      · rw [hfil, ← sum_map_ite_filter_bool]
        exact key (·.missedBlocksFinalized)
          (fun v => if isActiveStatus v.validator.status then v.missedBlocksFinalized else 0)
          (fun r v => (updateRecord_counters r v).2.2.2.1) rfl
          (fun x => (applyRates_counters x).2.2.2.1)
      · rw [hfil, ← sum_map_ite_filter_bool]
        exact key (·.futureBlockProposals)
          (fun v => if isActiveStatus v.validator.status then v.futureBlockProposals else 0)
          (fun r v => (updateRecord_counters r v).2.2.2.2.1) rfl
          (fun x => (applyRates_counters x).2.2.2.2.1)
      · rw [hfil, ← sum_map_ite_filter_bool]
        exact key (·.missedAttestations)
          (fun v => if isActiveStatus v.validator.status then v.missedAttestations else 0)
          (fun r v => (updateRecord_counters r v).2.2.2.2.2.1) rfl
          (fun x => (applyRates_counters x).2.2.2.2.2.1)
      · rw [hfil, ← sum_map_ite_filter_bool]
        exact key (·.suboptimalSourceVotes)
          (fun v => if isActiveStatus v.validator.status then v.suboptimalSourceVotes else 0)
          (fun r v => (updateRecord_counters r v).2.2.2.2.2.2.1) rfl
          (fun x => (applyRates_counters x).2.2.2.2.2.2.1)
      · rw [hfil, ← sum_map_ite_filter_bool]
        exact key (·.suboptimalTargetVotes)
          (fun v => if isActiveStatus v.validator.status then v.suboptimalTargetVotes else 0)
          (fun r v => (updateRecord_counters r v).2.2.2.2.2.2.2.1) rfl
          (fun x => (applyRates_counters x).2.2.2.2.2.2.2.1)
      · rw [hfil, ← sum_map_ite_filter_bool]
        exact key (·.suboptimalHeadVotes)
          (fun v => if isActiveStatus v.validator.status then v.suboptimalHeadVotes else 0)
          (fun r v => (updateRecord_counters r v).2.2.2.2.2.2.2.2.1) rfl
          (fun x => (applyRates_counters x).2.2.2.2.2.2.2.2.1)
      · rw [hfil, ← sum_map_ite_filter_bool]
        exact key (·.attestationDuties)
          (fun v => if isActiveStatus v.validator.status then v.attestationDuties else 0)
          (fun r v => (updateRecord_counters r v).2.2.2.2.2.2.2.2.2.1) rfl
          (fun x => (applyRates_counters x).2.2.2.2.2.2.2.2.2.1)
      · rw [hfil, ← sum_map_ite_filter_bool]
        exact key (·.attestationDutiesSuccess)
          (fun v => if isActiveStatus v.validator.status then v.attestationDutiesSuccess else 0)
          (fun r v => (updateRecord_counters r v).2.2.2.2.2.2.2.2.2.2.1) rfl
          (fun x => (applyRates_counters x).2.2.2.2.2.2.2.2.2.2.1)
      · rw [hfil, ← sum_map_ite_filter_bool]
        exact key (·.idealConsensusRewards)
          (fun v => if isActiveStatus v.validator.status then v.idealConsensusRewards else 0)
          (fun r v => (updateRecord_counters r v).2.2.2.2.2.2.2.2.2.2.2.1) rfl
          (fun x => (applyRates_counters x).2.2.2.2.2.2.2.2.2.2.2.1)
      · rw [hfil, ← sum_map_ite_filter_bool]
        exact key (·.consensusRewards)
          (fun v => if isActiveStatus v.validator.status then v.consensusRewards else 0)
          (fun r v => (updateRecord_counters r v).2.2.2.2.2.2.2.2.2.2.2.2) rfl
          (fun x => (applyRates_counters x).2.2.2.2.2.2.2.2.2.2.2.2)

/-- Witness for C2: the amended sums applied to the one-validator
counterexample input. -/
theorem computeMetrics_label_sums_witness :
    alFind (ComputeMetrics [cexInactive]) "scope:watched" =
      some (applyRates (updateRecord (newRecord "scope:watched") cexInactive)) ∧
    (applyRates (updateRecord (newRecord "scope:watched") cexInactive)).proposedBlocks =
      (([cexInactive].filter fun v => decide ("scope:watched" ∈ v.labels)).map
        (·.proposedBlocks)).sum := by
  have hfind : alFind (ComputeMetrics [cexInactive]) "scope:watched" =
      some (applyRates (updateRecord (newRecord "scope:watched") cexInactive)) := rfl
  refine ⟨hfind, ?_⟩
  exact ((computeMetrics_label_sums [cexInactive] "scope:watched" _
    (by
      intro v hv
      rcases List.mem_singleton.mp hv with rfl
      exact List.nodup_singleton _)
    hfind).1).1

/-! ## Empty-watched-set publish theorems -/

theorem networkStep_proj (m : MetricsByLabel) (v : Validator) :
    (networkStep m v).validatorCount = m.validatorCount + 1 ∧
    (networkStep m v).stakeCount = m.stakeCount + (v.effectiveBalance : ℚ) / 32000000000 ∧
    (∀ s, (networkStep m v).statusCounts s =
      m.statusCounts s + (if s = v.status then 1 else 0)) ∧
    (∀ t, (networkStep m v).validatorTypeCounts t =
      m.validatorTypeCounts t + (if t = getValidatorType v.withdrawalCredentials then 1 else 0)) ∧
    (networkStep m v).slashedCount = m.slashedCount + (if v.slashed then 1 else 0) := by
  refine ⟨rfl, rfl, ?_, ?_, ?_⟩
  · intro s
    by_cases h : s = v.status <;> simp [networkStep, h]
  · intro t
    by_cases h : t = getValidatorType v.withdrawalCredentials <;> simp [networkStep, h]
  · by_cases h : v.slashed <;> simp [networkStep, h]

/-- C3 counterexample: with an empty watched set and a one-validator
snapshot, the published metrics map holds no entry at all for
"scope:watched" — not a record of zeros — while the "scope:all-network"
entry is present and populated. -/
theorem emptyWatched_cex :
    alFind (updateMetricsMap [] [sampleValidator]) "scope:watched" = none ∧
    (alFind (updateMetricsMap [] [sampleValidator]) "scope:all-network").map
      (·.validatorCount) = some 1 :=
  ⟨rfl, rfl⟩

/-- C3 (amended): when the watched set is empty, a publish cycle produces
no "scope:watched" record at all (so the watched scope exposes nothing
that cycle), while "scope:all-network" maps to the record computed from
the full snapshot, populated with counts, stakes, per-status and per-type
counts and the slashed count. -/
theorem emptyWatched_publishes :
    ∀ (allVals : List Validator),
      alFind (updateMetricsMap [] allVals) "scope:watched" = none ∧
      alFind (updateMetricsMap [] allVals) "scope:all-network" =
        some (ComputeNetworkMetrics allVals) ∧
      (ComputeNetworkMetrics allVals).validatorCount = allVals.length ∧
      (∀ s, (ComputeNetworkMetrics allVals).statusCounts s =
        (allVals.filter fun v => decide (s = v.status)).length) ∧
      (∀ t, (ComputeNetworkMetrics allVals).validatorTypeCounts t =
        (allVals.filter fun v => decide (t = getValidatorType v.withdrawalCredentials)).length) ∧
      (ComputeNetworkMetrics allVals).slashedCount =
        (allVals.filter (·.slashed)).length ∧
      (ComputeNetworkMetrics allVals).stakeCount =
        (allVals.map fun v => (v.effectiveBalance : ℚ) / 32000000000).sum := by
  intro allVals
  refine ⟨?_, ?_, ?_, ?_, ?_, ?_, ?_⟩
  · show alFind (alInsert (ComputeMetrics []) "scope:all-network"
      (ComputeNetworkMetrics allVals)) "scope:watched" = none
    rw [alFind_alInsert_ne _ _ _ _ (by decide)]
    rfl
  · exact alFind_alInsert_self _ _ _
  · have h := foldl_proj networkStep (·.validatorCount) (fun _ => 1)
      (fun m v => (networkStep_proj m v).1) allVals (newRecord "scope:all-network")
    rw [ComputeNetworkMetrics, h, sum_map_ones]
    exact Nat.zero_add _
  · intro s
    have h := foldl_proj networkStep (·.statusCounts s)
      (fun v => if s = v.status then 1 else 0)
      (fun m v => (networkStep_proj m v).2.2.1 s) allVals (newRecord "scope:all-network")
    rw [ComputeNetworkMetrics, h, sum_map_ite_filter_prop allVals (fun v => s = v.status)
      (fun _ => 1), sum_map_ones]
    exact Nat.zero_add _
  · intro t
    have h := foldl_proj networkStep (·.validatorTypeCounts t)
      (fun v => if t = getValidatorType v.withdrawalCredentials then 1 else 0)
      (fun m v => (networkStep_proj m v).2.2.2.1 t) allVals (newRecord "scope:all-network")
    rw [ComputeNetworkMetrics, h, sum_map_ite_filter_prop allVals
      (fun v => t = getValidatorType v.withdrawalCredentials) (fun _ => 1), sum_map_ones]
    exact Nat.zero_add _
  · have h := foldl_proj networkStep (·.slashedCount) (fun v => if v.slashed then 1 else 0)
      (fun m v => (networkStep_proj m v).2.2.2.2) allVals (newRecord "scope:all-network")
    rw [ComputeNetworkMetrics, h, sum_map_ite_filter_bool allVals (·.slashed) (fun _ => 1),
      sum_map_ones]
    exact Nat.zero_add _
  · have h := foldl_proj networkStep (·.stakeCount)
      (fun v => (v.effectiveBalance : ℚ) / 32000000000)
      (fun m v => (networkStep_proj m v).2.1) allVals (newRecord "scope:all-network")
    rw [ComputeNetworkMetrics, h]
    exact zero_add _

end EthWatcher
